import Mathlib

/-!
Verification of the canvas compositing core of the familiar-says repository.

Go strings are modelled as `List Char`; machine integers (`int`) as `Int`;
nil pointers as `Option`; a Go runtime panic as an `Option.none` result.
Durations are modelled in milliseconds (the code converts `DurationMs` to
nanoseconds by a uniform positive scale factor, which preserves every
comparison and subtraction the frame player performs).
-/

namespace FamiliarSays

/-- Convenience: the characters of a string literal. -/
def str (s : String) : List Char := s.toList

/-- The zero rune used by the canvas as a wide-character continuation marker. -/
def nullChar : Char := Char.ofNat 0

/-- The ANSI escape character. -/
def escChar : Char := Char.ofNat 27

/-- Display width of a rune, modelled after the go-runewidth library:
0 for the zero rune, control characters and combining marks, 2 for wide
East-Asian / emoji ranges, 1 otherwise. -/
def runeWidth (c : Char) : Nat :=
  let n := c.toNat
  if n = 0 then 0
  else if n < 0x20 then 0
  else if 0x7f ≤ n ∧ n < 0xa0 then 0
  else if 0x300 ≤ n ∧ n ≤ 0x36f then 0
  else if (0x1100 ≤ n ∧ n ≤ 0x115f) ∨ (0x2e80 ≤ n ∧ n ≤ 0x303e) ∨
          (0x3041 ≤ n ∧ n ≤ 0x33ff) ∨ (0x3400 ≤ n ∧ n ≤ 0x4dbf) ∨
          (0x4e00 ≤ n ∧ n ≤ 0x9fff) ∨ (0xa000 ≤ n ∧ n ≤ 0xa4cf) ∨
          (0xac00 ≤ n ∧ n ≤ 0xd7a3) ∨ (0xf900 ≤ n ∧ n ≤ 0xfaff) ∨
          (0xfe30 ≤ n ∧ n ≤ 0xfe4f) ∨ (0xff00 ≤ n ∧ n ≤ 0xff60) ∨
          (0xffe0 ≤ n ∧ n ≤ 0xffe6) ∨ (0x20000 ≤ n ∧ n ≤ 0x2fffd) ∨
          (0x30000 ≤ n ∧ n ≤ 0x3fffd) ∨ (0x1f300 ≤ n ∧ n ≤ 0x1f64f) ∨
          (0x1f900 ≤ n ∧ n ≤ 0x1f9ff) then 2
  else 1

/-- Display width of a string (runewidth.StringWidth): sum of rune widths. -/
def strWidth (s : List Char) : Nat := (s.map runeWidth).sum

/-- A lipgloss style, modelled by the markup it emits around rendered text:
an opening escape sequence and a closing one.  `lipgloss.NewStyle()` emits
nothing and is the pair of empty strings. -/
structure Style where
  pre : List Char := []
  suf : List Char := []
deriving DecidableEq, Repr

/-- Rendering a string through a style surrounds it with the style's markup
(lipgloss `Style.Render`). -/
def Style.renderS (st : Style) (s : List Char) : List Char := st.pre ++ s ++ st.suf

/-- A single character cell of the canvas. -/
structure Cell where
  rune : Char
  style : Style
  transparent : Bool
deriving DecidableEq, Repr

/-- The transparent space cell used to initialise canvases and returned by
out-of-bounds reads. -/
def transparentCell : Cell := ⟨' ', {}, true⟩

/-- A 2D grid of cells (canvas.go `Canvas`). -/
structure Canvas where
  width : Nat
  height : Nat
  cells : List (List Cell)
deriving DecidableEq, Repr

/-- NewCanvas: a transparent canvas; non-positive dimensions are clamped to 1. -/
def newCanvas (w h : Int) : Canvas :=
  let w' : Nat := if w ≤ 0 then 1 else w.toNat
  let h' : Nat := if h ≤ 0 then 1 else h.toNat
  ⟨w', h', List.replicate h' (List.replicate w' transparentCell)⟩

/-- Well-formedness of a canvas: positive dimensions and a rectangular grid.
Every canvas the library constructs satisfies this. -/
def Canvas.WF (c : Canvas) : Prop :=
  1 ≤ c.width ∧ 1 ≤ c.height ∧ c.cells.length = c.height ∧
    ∀ row ∈ c.cells, row.length = c.width

instance (c : Canvas) : Decidable c.WF := by
  unfold Canvas.WF; infer_instance

/-- Canvas.Set: write a non-transparent cell; out-of-bounds writes are ignored. -/
def Canvas.set (c : Canvas) (x y : Int) (r : Char) (st : Style) : Canvas :=
  if x < 0 ∨ (c.width : Int) ≤ x ∨ y < 0 ∨ (c.height : Int) ≤ y then c
  else { c with
         cells := c.cells.set y.toNat
           ((c.cells.getD y.toNat []).set x.toNat ⟨r, st, false⟩) }

/-- Canvas.Get: read a cell; out-of-bounds reads return a transparent space. -/
def Canvas.get (c : Canvas) (x y : Int) : Cell :=
  if x < 0 ∨ (c.width : Int) ≤ x ∨ y < 0 ∨ (c.height : Int) ≤ y then transparentCell
  else (c.cells.getD y.toNat []).getD x.toNat transparentCell

/-- Direct cell assignment (used by Clone, which copies cells verbatim,
transparency flag included). -/
def Canvas.putCell (c : Canvas) (x y : Nat) (cell : Cell) : Canvas :=
  { c with cells := c.cells.set y ((c.cells.getD y []).set x cell) }

/-- Loop body of DrawString: write each rune, fill the extra columns of a wide
rune with continuation markers, and advance the column by the rune's width. -/
def drawStringGo (y : Int) (st : Style) : Canvas → Int → List Char → Canvas
  | c, _, [] => c
  | c, col, r :: rest =>
    let c1 := c.set col y r st
    let w := runeWidth r
    let c2 := (List.range (w - 1)).foldl
      (fun acc i => acc.set (col + 1 + (i : Int)) y nullChar st) c1
    drawStringGo y st c2 (col + (w : Int)) rest

/-- Canvas.DrawString. -/
def Canvas.drawString (c : Canvas) (x y : Int) (s : List Char) (st : Style) : Canvas :=
  drawStringGo y st c x s

/-- Canvas.DrawLines: draw each line one row further down. -/
def Canvas.drawLines (c : Canvas) (x y : Int) (lines : List (List Char)) (st : Style) : Canvas :=
  lines.enum.foldl (fun acc p => acc.drawString x (y + (p.1 : Int)) p.2 st) c

/-- Body of Canvas.Overlay: copy every non-transparent cell of `other` onto
the receiver at the given offset. -/
def Canvas.overlayCells (c other : Canvas) (x y : Int) : Canvas :=
  (List.range other.height).foldl (fun acc oy =>
    (List.range other.width).foldl (fun acc2 ox =>
      let cell := (other.cells.getD oy []).getD ox transparentCell
      if cell.transparent then acc2
      else acc2.set (x + (ox : Int)) (y + (oy : Int)) cell.rune cell.style) acc) c

/-- Canvas.Overlay: no-op when `other` is nil. -/
def Canvas.overlay (c : Canvas) (other : Option Canvas) (x y : Int) : Canvas :=
  match other with
  | none => c
  | some o => c.overlayCells o x y

/-- Canvas.Clone: a fresh canvas of the same dimensions with every cell copied. -/
def Canvas.clone (c : Canvas) : Canvas :=
  (List.range c.height).foldl (fun acc y =>
    (List.range c.width).foldl (fun acc2 x =>
      acc2.putCell x y ((c.cells.getD y []).getD x transparentCell)) acc)
    (newCanvas (c.width : Int) (c.height : Int))

/-- Merge: place two canvases side by side with a gap; a nil side yields a
clone of the other side, two nils a minimal 1x1 canvas. -/
def merge (left right : Option Canvas) (gap : Int) : Canvas :=
  match left, right with
  | none, none => newCanvas 1 1
  | none, some rc => rc.clone
  | some lc, none => lc.clone
  | some lc, some rc =>
    let width : Int := (lc.width : Int) + gap + (rc.width : Int)
    let height : Nat := if rc.height > lc.height then rc.height else lc.height
    let result := newCanvas width (height : Int)
    let result := result.overlay (some lc) 0 0
    result.overlay (some rc) ((lc.width : Int) + gap) 0

/-- Stack: place one canvas above the other with a gap; nil handling as in
merge. -/
def stack (top bottom : Option Canvas) (gap : Int) : Canvas :=
  match top, bottom with
  | none, none => newCanvas 1 1
  | none, some bc => bc.clone
  | some tc, none => tc.clone
  | some tc, some bc =>
    let width : Nat := if bc.width > tc.width then bc.width else tc.width
    let height : Int := (tc.height : Int) + gap + (bc.height : Int)
    let result := newCanvas (width : Int) height
    let result := result.overlay (some tc) 0 0
    result.overlay (some bc) 0 ((tc.height : Int) + gap)

/-- stripAnsi with explicit escape-state threading: outside an escape, ESC
enters escape mode; inside, characters are skipped until an ASCII letter ends
the sequence.  Returns the kept text and the final state. -/
def stripAnsiSt : Bool → List Char → List Char × Bool
  | st, [] => ([], st)
  | st, r :: rest =>
    if r = escChar then stripAnsiSt true rest
    else if st then
      if ('a' ≤ r ∧ r ≤ 'z') ∨ ('A' ≤ r ∧ r ≤ 'Z') then stripAnsiSt false rest
      else stripAnsiSt true rest
    else
      let p := stripAnsiSt false rest
      (r :: p.1, p.2)

/-- stripAnsi: remove ANSI escape sequences from a string. -/
def stripAnsi (s : List Char) : List Char := (stripAnsiSt false s).1

/-- Whitespace as Go's strings.TrimSpace sees it (Latin-1 space set). -/
def goIsSpace (c : Char) : Bool :=
  c = ' ' ∨ c = '\t' ∨ c = '\n' ∨ c.toNat = 0x0b ∨ c.toNat = 0x0c ∨
    c = '\r' ∨ c.toNat = 0x85 ∨ c.toNat = 0xa0

/-- A line is blank when trimming whitespace leaves nothing. -/
def isBlankLine (l : List Char) : Bool := l.all goIsSpace

/-- One row of Render.  The source walks the row by a column index that a
rune advances by its display width (at least 1); the extra columns a wide
rune spans are modelled by a skip counter.  Continuation markers at the
current column are skipped without output. -/
def renderRowStyledAux : Nat → List Cell → List Char
  | _, [] => []
  | skip + 1, _ :: rest => renderRowStyledAux skip rest
  | 0, cell :: rest =>
    if cell.rune = nullChar then renderRowStyledAux 0 rest
    else cell.style.renderS [cell.rune] ++
      renderRowStyledAux (max (runeWidth cell.rune) 1 - 1) rest

/-- One row of Render, starting at column 0. -/
def renderRowStyled (row : List Cell) : List Char := renderRowStyledAux 0 row

/-- One row of RenderPlain: every rune except continuation markers. -/
def renderRowPlain (row : List Cell) : List Char :=
  (row.filter (fun c => ¬ c.rune = nullChar)).map Cell.rune

/-- Canvas.Render: styled rows, then trailing all-whitespace rows (judged
after markup removal) trimmed from the end. -/
def Canvas.render (c : Canvas) : List (List Char) :=
  let lines := (List.range c.height).map (fun y => renderRowStyled (c.cells.getD y []))
  (lines.reverse.dropWhile (fun l => isBlankLine (stripAnsi l))).reverse

/-- Canvas.RenderPlain: plain rows, no trimming. -/
def Canvas.renderPlain (c : Canvas) : List (List Char) :=
  (List.range c.height).map (fun y => renderRowPlain (c.cells.getD y []))

/-- Maximum display width over a list of lines. -/
def maxStrWidth (lines : List (List Char)) : Nat :=
  lines.foldl (fun m l => max m (strWidth l)) 0

/-- FromLines: a canvas sized to the lines, with the lines drawn at (0,0). -/
def fromLines (lines : List (List Char)) (st : Style) : Canvas :=
  match lines with
  | [] => newCanvas 1 1
  | _ =>
    let maxW := maxStrWidth lines
    let maxW := if maxW = 0 then 1 else maxW
    (newCanvas (maxW : Int) ((lines.length : Int))).drawLines 0 0 lines st

/-! Text wrapper (compositor.go wrapText / splitWords). -/

/-- splitWords: split on space, tab and newline, dropping empty pieces. -/
def splitWordsGo : List Char → List Char → List (List Char)
  | current, [] => if current ≠ [] then [current] else []
  | current, r :: rest =>
    if r = ' ' ∨ r = '\t' ∨ r = '\n' then
      if current ≠ [] then current :: splitWordsGo [] rest
      else splitWordsGo [] rest
    else splitWordsGo (current ++ [r]) rest

/-- splitWords on a text. -/
def splitWords (text : List Char) : List (List Char) := splitWordsGo [] text

/-- Greedy fill loop of wrapText over the word list. -/
def wrapGo (width : Int) : List (List Char) → List (List Char) → List Char → List (List Char)
  | lines, [], current => if current ≠ [] then lines ++ [current] else lines
  | lines, word :: rest, current =>
    if current = [] then wrapGo width lines rest word
    else if (strWidth (current ++ ' ' :: word) : Int) ≤ width then
      wrapGo width lines rest (current ++ ' ' :: word)
    else wrapGo width (lines ++ [current]) rest word

/-- wrapText: wrap text to the given width; empty text yields no lines. -/
def wrapText (text : List Char) (width : Int) : List (List Char) :=
  if text = [] then []
  else wrapGo width [] (splitWords text) []

/-- repeat helper of the compositor: n copies of s, empty for non-positive n. -/
def repeatS (s : List Char) (n : Int) : List Char :=
  if n ≤ 0 then [] else (List.range n.toNat).foldl (fun acc _ => acc ++ s) []

/-- padRight: pad with spaces up to the target display width. -/
def padRight (s : List Char) (width : Int) : List Char :=
  if (strWidth s : Int) ≥ width then s
  else s ++ repeatS [' '] (width - (strWidth s : Int))

/-! Bubble templates (bubble/template.go). -/

/-- A bubble template: border, corner and delimiter glyph strings plus text
decorations.  Field names prefixText / suffixText carry the source's text
decorator fields. -/
structure BubbleTemplate where
  name : List Char := []
  topBorder : List Char := []
  bottomBorder : List Char := []
  topLeftCorner : List Char := []
  topRightCorner : List Char := []
  bottomLeftCorner : List Char := []
  bottomRightCorner : List Char := []
  singleLeft : List Char := []
  singleRight : List Char := []
  multiFirst : List Char × List Char := ([], [])
  multiMiddle : List Char × List Char := ([], [])
  multiLast : List Char × List Char := ([], [])
  connector : List Char := []
  prefixText : List Char := []
  suffixText : List Char := []
  borderDecorator : List Char := []
deriving DecidableEq, Repr

/-- The builtin say template. -/
def sayTemplate : BubbleTemplate :=
  { name := str "say", topBorder := str "_", bottomBorder := str "-",
    singleLeft := str "<", singleRight := str ">",
    multiFirst := (str "/", str "\\"), multiMiddle := (str "|", str "|"),
    multiLast := (str "\\", str "/"), connector := str "\\" }

/-- The builtin think template. -/
def thinkTemplate : BubbleTemplate :=
  { name := str "think", topBorder := str "_", bottomBorder := str "-",
    singleLeft := str "(", singleRight := str ")",
    multiFirst := (str "(", str ")"), multiMiddle := (str "(", str ")"),
    multiLast := (str "(", str ")"), connector := str "o" }

/-- The builtin shout template. -/
def shoutTemplate : BubbleTemplate :=
  { name := str "shout", topBorder := str "^", bottomBorder := str "v",
    topLeftCorner := str "/", topRightCorner := str "\\",
    bottomLeftCorner := str "\\", bottomRightCorner := str "/",
    singleLeft := str "<", singleRight := str ">",
    multiFirst := (str "<", str ">"), multiMiddle := (str "<", str ">"),
    multiLast := (str "<", str ">"), connector := str "!",
    suffixText := str "!!!" }

/-- The builtin whisper template. -/
def whisperTemplate : BubbleTemplate :=
  { name := str "whisper", topBorder := str ".", bottomBorder := str ".",
    singleLeft := str ":", singleRight := str ":",
    multiFirst := (str ":", str ":"), multiMiddle := (str ":", str ":"),
    multiLast := (str ":", str ":"), connector := str ".",
    prefixText := str "(", suffixText := str ")" }

/-- The builtin song template. -/
def songTemplate : BubbleTemplate :=
  { name := str "song", topBorder := str "~", bottomBorder := str "~",
    borderDecorator := str "♪",
    singleLeft := str "♪", singleRight := str "♫",
    multiFirst := (str "♪", str "♫"), multiMiddle := (str "♫", str "♪"),
    multiLast := (str "♪", str "♫"), connector := str "♪",
    prefixText := str "♪ ", suffixText := str " ♫" }

/-- The builtin code template. -/
def codeTemplate : BubbleTemplate :=
  { name := str "code", topBorder := str "─", bottomBorder := str "─",
    topLeftCorner := str "┌", topRightCorner := str "┐",
    bottomLeftCorner := str "└", bottomRightCorner := str "┘",
    singleLeft := str "│", singleRight := str "│",
    multiFirst := (str "│", str "│"), multiMiddle := (str "│", str "│"),
    multiLast := (str "│", str "│"), connector := str "│" }

/-! Compositor (canvas/compositor.go). -/

/-- BubbleStyle enumeration. -/
inductive BubbleStyle where
  | say | think | shout | whisper | song | code
deriving DecidableEq, Repr

/-- Layout enumeration. -/
inductive Layout where
  | vertical | horizontal
deriving DecidableEq, Repr

/-- Tail directions. -/
inductive TailDirection where
  | down | up | left | right
deriving DecidableEq, Repr

/-- GetTemplateForBubbleStyle. -/
def getTemplateForBubbleStyle : BubbleStyle → BubbleTemplate
  | .think => thinkTemplate
  | .shout => shoutTemplate
  | .whisper => whisperTemplate
  | .song => songTemplate
  | .code => codeTemplate
  | .say => sayTemplate

/-- buildDecoratedBorder: border characters with the decorator substituted at
every 5th position, never first or last. -/
def buildDecoratedBorder (borderChar : List Char) (length : Int) (dec : List Char) : List Char :=
  (List.range length.toNat).foldl
    (fun acc i =>
      if 0 < i ∧ (i : Int) < length - 1 ∧ i % 5 = 0 then acc ++ dec
      else acc ++ borderChar) []

/-- buildBorder: corners (defaulting to a space) around a repeated border
glyph, optionally decorated. -/
def buildBorder (borderChar : List Char) (length : Int)
    (leftCorner rightCorner dec : List Char) : List Char :=
  let lc := if leftCorner = [] then [' '] else leftCorner
  let rc := if rightCorner = [] then [' '] else rightCorner
  let middle := if dec ≠ [] then buildDecoratedBorder borderChar length dec
                else repeatS borderChar length
  lc ++ middle ++ rc

/-- renderBubbleWithTemplate: decorate, wrap, pad and frame the text. -/
def renderBubbleWithTemplate (text : List Char) (width : Int)
    (tmpl : BubbleTemplate) : List (List Char) :=
  let text := if tmpl.prefixText ≠ [] ∨ tmpl.suffixText ≠ [] then
                tmpl.prefixText ++ text ++ tmpl.suffixText
              else text
  let lines := wrapText text width
  let lines := if lines = [] then [([] : List Char)] else lines
  let maxLen : Int := (maxStrWidth lines : Int)
  let topBorder := buildBorder tmpl.topBorder (maxLen + 2) tmpl.topLeftCorner
    tmpl.topRightCorner tmpl.borderDecorator
  let contents :=
    if lines.length = 1 then
      [tmpl.singleLeft ++ ' ' :: padRight (lines.getD 0 []) maxLen ++ ' ' :: tmpl.singleRight]
    else
      lines.enum.map (fun p =>
        let padded := padRight p.2 maxLen
        let pair := if p.1 = 0 then tmpl.multiFirst
                    else if p.1 = lines.length - 1 then tmpl.multiLast
                    else tmpl.multiMiddle
        pair.1 ++ ' ' :: padded ++ ' ' :: pair.2)
  let bottomBorder := buildBorder tmpl.bottomBorder (maxLen + 2) tmpl.bottomLeftCorner
    tmpl.bottomRightCorner tmpl.borderDecorator
  topBorder :: contents ++ [bottomBorder]

/-- RenderBubble: template-rendered bubble lines as a canvas. -/
def renderBubble (text : List Char) (width : Int) (style : BubbleStyle)
    (color : Style) : Canvas :=
  fromLines (renderBubbleWithTemplate text width (getTemplateForBubbleStyle style)) color

/-- generateConnector (tail down): one glyph per row, indent growing from the
anchor column. -/
def generateConnector (ch : List Char) (length : Int) (anchorX : Int) (st : Style) : Canvas :=
  let lines := (List.range length.toNat).map (fun i =>
    let indent : Int := anchorX + (i : Int)
    let indent := if indent < 0 then 0 else indent
    repeatS [' '] indent ++ ch)
  fromLines lines st

/-- generateConnectorUp: indent decreasing with the row index. -/
def generateConnectorUp (ch : List Char) (length : Int) (anchorX : Int) (st : Style) : Canvas :=
  let lines := (List.range length.toNat).map (fun i =>
    let indent : Int := anchorX + (length - 1 - (i : Int))
    let indent := if indent < 0 then 0 else indent
    repeatS [' '] indent ++ ch)
  fromLines lines st

/-- generateConnectorLeft: a single row of spaced glyphs. -/
def generateConnectorLeft (ch : List Char) (length : Int) (st : Style) : Canvas :=
  let line := repeatS (ch ++ [' ']) length
  fromLines [line.reverse.dropWhile (fun c => c = ' ') |>.reverse] st

/-- generateConnectorRight: an indent, then spaced glyphs. -/
def generateConnectorRight (ch : List Char) (length : Int) (anchorX : Int) (st : Style) : Canvas :=
  let line := repeatS [' '] anchorX ++ repeatS (' ' :: ch) length
  fromLines [line] st

/-- generateConnectorWithDirection. -/
def generateConnectorWithDirection (ch : List Char) (length : Int) (anchorX : Int)
    (dir : TailDirection) (st : Style) : Canvas :=
  match dir with
  | .up => generateConnectorUp ch length anchorX st
  | .left => generateConnectorLeft ch length st
  | .right => generateConnectorRight ch length anchorX st
  | .down => generateConnector ch length anchorX st

/-! Character colors (canvas/color.go). -/

/-- Per-part color strings of a character. -/
structure CharacterColors where
  outline : List Char := []
  eyes : List Char := []
  mouth : List Char := []
deriving DecidableEq, Repr

/-- Resolved per-part styles. -/
structure CharacterStyles where
  outline : Style := {}
  eyes : Style := {}
  mouth : Style := {}
deriving DecidableEq, Repr

/-- Go strings.TrimSpace. -/
def goTrimSpace (s : List Char) : List Char :=
  ((s.dropWhile goIsSpace).reverse.dropWhile goIsSpace).reverse

/-- The style lipgloss produces for a foreground color: an SGR escape
sequence pair.  The concrete bytes depend on the terminal profile; they are
modelled by a representative well-formed sequence. -/
def foregroundStyle (color : List Char) : Style :=
  ⟨[escChar, '[', '3', '8', 'm'] ++ (color.map (fun _ => '0')) ++ ['m'],
   [escChar, '[', '0', 'm']⟩

/-- ParseColorOrDefault: the fallback style for blank input, otherwise a
foreground style for the parsed color. -/
def parseColorOrDefault (s : List Char) (defaultStyle : Style) : Style :=
  if goTrimSpace s = [] then defaultStyle else foregroundStyle s

/-- ResolveCharacterStyles: fallback everywhere, overridden per part by any
non-empty color string. -/
def resolveCharacterStyles (colors : Option CharacterColors) (fallback : Style) :
    CharacterStyles :=
  match colors with
  | none => ⟨fallback, fallback, fallback⟩
  | some cs =>
    { outline := if cs.outline ≠ [] then parseColorOrDefault cs.outline fallback else fallback
      eyes := if cs.eyes ≠ [] then parseColorOrDefault cs.eyes fallback else fallback
      mouth := if cs.mouth ≠ [] then parseColorOrDefault cs.mouth fallback else fallback }

/-- MergeColors: override wins field by field; empty override fields keep the
base value. -/
def mergeColors (base override : Option CharacterColors) : Option CharacterColors :=
  match base, override with
  | none, none => none
  | _, _ =>
    let r : CharacterColors := match base with
      | none => {}
      | some b => ⟨b.outline, b.eyes, b.mouth⟩
    let r : CharacterColors := match override with
      | none => r
      | some o =>
        { outline := if o.outline ≠ [] then o.outline else r.outline
          eyes := if o.eyes ≠ [] then o.eyes else r.eyes
          mouth := if o.mouth ≠ [] then o.mouth else r.mouth }
    some r

/-! Character descriptor and slot substitution (canvas/character.go). -/

/-- A replaceable region in the character art. -/
structure Slot where
  line : Int
  col : Int
  width : Int
  placeholder : List Char
deriving DecidableEq, Repr

/-- Where the connector attaches. -/
structure Anchor where
  x : Int := 0
  y : Int := 0
deriving DecidableEq, Repr

/-- A character descriptor (the fields slot substitution and composition
use). -/
structure Character where
  name : List Char := []
  art : List (List Char) := []
  anchor : Anchor := {}
  eyes : Option Slot := none
  mouth : Option Slot := none
  colors : Option CharacterColors := none
deriving DecidableEq, Repr

/-- Replace the first occurrence of a non-empty pattern. -/
def replaceFirstAux (old new : List Char) : List Char → List Char
  | [] => []
  | c :: rest =>
    if old.isPrefixOf (c :: rest) then new ++ (c :: rest).drop old.length
    else c :: replaceFirstAux old new rest

/-- Go strings.Replace with n = 1: an empty pattern inserts the replacement
at the front, otherwise the first occurrence is replaced. -/
def replaceFirst (s old new : List Char) : List Char :=
  if old = [] then new ++ s else replaceFirstAux old new s

/-- Go strings.Contains. -/
def containsSub : List Char → List Char → Bool
  | line, pat =>
    match line with
    | [] => pat.isPrefixOf ([] : List Char)
    | c :: rest => pat.isPrefixOf (c :: rest) || containsSub rest pat

/-- Go strings.Index as an optional position (rune-based; the art the library
ships is ASCII, where rune and byte offsets coincide). -/
def indexOfSub : List Char → List Char → Option Nat
  | line, pat =>
    match line with
    | [] => if pat.isPrefixOf ([] : List Char) then some 0 else none
    | c :: rest =>
      if pat.isPrefixOf (c :: rest) then some 0
      else (indexOfSub rest pat).map (· + 1)

/-- replaceSlot: center the value in the slot (effective width the larger of
slot width and value width, extra space biased right) and replace the
placeholder's first occurrence; an empty placeholder leaves the line
untouched. -/
def replaceSlot (line : List Char) (slot : Slot) (value : List Char) : List Char :=
  if slot.placeholder = [] then line
  else
    let valueWidth : Int := (strWidth value : Int)
    let slotWidth : Int := if slot.width < valueWidth then valueWidth else slot.width
    let padding := slotWidth - valueWidth
    let leftPad := padding / 2
    let rightPad := padding - leftPad
    let centered := repeatS [' '] leftPad ++ value ++ repeatS [' '] rightPad
    replaceFirst line slot.placeholder centered

/-- The columns ToCanvasStyled marks for a slot's style: slot-width many
columns from the placeholder position, when the placeholder occurs. -/
def slotMarks (origLine : List Char) (s : Slot) (value : List Char) : List Int :=
  match indexOfSub origLine s.placeholder with
  | none => []
  | some idx =>
    let valueWidth : Int := (strWidth value : Int)
    let slotWidth : Int := if s.width < valueWidth then valueWidth else s.width
    (List.range slotWidth.toNat).map (fun i => (idx : Int) + (i : Int))

/-- One slot pass of ToCanvasStyled: skipped when the slot is absent or its
row is at or past the end of the art; a negative row passes the source's
guard and the subsequent indexing panics, modelled as none. -/
def slotApply (lines : List (List Char)) (slotOpt : Option Slot) (value : List Char) :
    Option (List (List Char) × Option (Int × List Int)) :=
  match slotOpt with
  | none => some (lines, none)
  | some s =>
    if s.line < (lines.length : Int) then
      if s.line < 0 then none
      else
        let orig := lines.getD s.line.toNat []
        some (lines.set s.line.toNat (replaceSlot orig s value),
              some (s.line, slotMarks orig s value))
    else some (lines, none)

/-- Whether a cell at row y, column col is marked for a slot's style. -/
def styleHit (info : Option (Int × List Int)) (y col : Nat) : Bool :=
  match info with
  | none => false
  | some p => (y : Int) = p.1 && p.2.contains (col : Int)

/-- Drawing pass of ToCanvasStyled: each rune is written at its rune index
(the column counter advances by one per rune), styled as eyes, mouth or
outline according to the marked columns. -/
def drawStyledLines (base : Canvas) (lines : List (List Char))
    (eyeInfo mouthInfo : Option (Int × List Int)) (styles : CharacterStyles) : Canvas :=
  lines.enum.foldl (fun acc yp =>
    yp.2.enum.foldl (fun acc2 cp =>
      let cellStyle := if styleHit eyeInfo yp.1 cp.1 then styles.eyes
                       else if styleHit mouthInfo yp.1 cp.1 then styles.mouth
                       else styles.outline
      acc2.set (cp.1 : Int) (yp.1 : Int) cp.2 cellStyle) acc) base

/-- ToCanvasStyled: canvas sized from the art, eye and mouth slots
substituted and tracked, then the lines drawn with per-part styles. -/
def Character.toCanvasStyled (ch : Character) (eyes mouth : List Char)
    (styles : CharacterStyles) : Option Canvas :=
  if ch.art = [] then some (newCanvas 1 1)
  else
    let maxW0 := maxStrWidth ch.art
    let maxW := if maxW0 = 0 then 1 else maxW0
    match slotApply ch.art ch.eyes eyes with
    | none => none
    | some (lines1, eyeInfo) =>
      match slotApply lines1 ch.mouth mouth with
      | none => none
      | some (lines2, mouthInfo) =>
        some (drawStyledLines (newCanvas (maxW : Int) ((ch.art.length : Nat) : Int))
          lines2 eyeInfo mouthInfo styles)

/-- GetAnchorX. -/
def Character.getAnchorX (ch : Character) : Int := ch.anchor.x

/-- Compositor configuration. -/
structure CompositorConfig where
  bubbleWidth : Int := 40
  bubbleStyle : BubbleStyle := .say
  layout : Layout := .vertical
  bubbleColor : Style := {}
  charColor : Style := {}
  charColors : Option CharacterColors := none
  connectorLen : Int := 2
  tailDirection : TailDirection := .down
deriving Repr

/-- DefaultConfig. -/
def defaultConfig : CompositorConfig := {}

/-- composeWithDirection: arrange bubble, connector and character by tail
direction and layout. -/
def composeWithDirection (bubbleCanvas connectorCanvas charCanvas : Canvas)
    (config : CompositorConfig) : Canvas :=
  match config.tailDirection with
  | .up =>
    let result := stack (some charCanvas) (some connectorCanvas) 0
    stack (some result) (some bubbleCanvas) 0
  | .left =>
    merge (some charCanvas) (some (merge (some connectorCanvas) (some bubbleCanvas) 1)) 2
  | .right =>
    merge (some bubbleCanvas) (some (merge (some connectorCanvas) (some charCanvas) 1)) 2
  | .down =>
    match config.layout with
    | .horizontal =>
      let combined := stack (some bubbleCanvas) (some connectorCanvas) 0
      merge (some combined) (some charCanvas) 2
    | .vertical =>
      let result := stack (some bubbleCanvas) (some connectorCanvas) 0
      stack (some result) (some charCanvas) 0

/-- Compose: bubble, connector and character canvases combined; the
character render's possible panic propagates. -/
def compose (text : List Char) (char : Character) (eyes mouth : List Char)
    (config : CompositorConfig) : Option Canvas :=
  let config := { config with
    bubbleWidth := if config.bubbleWidth ≤ 0 then 40 else config.bubbleWidth,
    connectorLen := if config.connectorLen ≤ 0 then 2 else config.connectorLen }
  let bubbleCanvas := renderBubble text config.bubbleWidth config.bubbleStyle config.bubbleColor
  let tmpl := getTemplateForBubbleStyle config.bubbleStyle
  let connectorChar := if tmpl.connector = [] then str "\\" else tmpl.connector
  let connectorCanvas := generateConnectorWithDirection connectorChar
    config.connectorLen char.getAnchorX config.tailDirection config.charColor
  let mergedColors := mergeColors char.colors config.charColors
  let charStyles := resolveCharacterStyles mergedColors config.charColor
  match char.toCanvasStyled eyes mouth charStyles with
  | none => none
  | some charCanvas =>
    some (composeWithDirection bubbleCanvas connectorCanvas charCanvas config)

/-- The builtin cat character (character.go builtinCat). -/
def builtinCat : Character :=
  { name := str "cat",
    art := [str "  /\\_/\\  ", str " ( @@ ) ", str " =( Y )=", str "   ^ ^  "],
    anchor := ⟨4, 0⟩,
    eyes := some ⟨1, 3, 2, str "@@"⟩,
    mouth := some ⟨2, 4, 1, str "Y"⟩ }

/-! Animation frame player (animation/frames.go).  Times are in
milliseconds. -/

/-- One animation frame (the fields Tick consults). -/
structure AnimationFrame where
  durationMs : Int := 0
  art : List (List Char) := []
  eyes : List Char := []
  mouth : List Char := []
deriving DecidableEq, Repr

/-- An animation sequence. -/
structure AnimationSequence where
  frames : List AnimationFrame
  loop : Bool
deriving DecidableEq, Repr

/-- The mutable cursor state of a FramePlayer. -/
structure PlayerState where
  currentFrame : Nat
  elapsed : Int
  done : Bool
deriving DecidableEq, Repr

/-- The state NewFramePlayer creates. -/
def initialPlayerState : PlayerState := ⟨0, 0, false⟩

/-- IsComplete. -/
def PlayerState.isComplete (st : PlayerState) : Bool := st.done

/-- Duration (ms) of the frame at an index, used where the source indexes
the frame slice under a bounds guard. -/
def durAt (frames : List AnimationFrame) (i : Nat) : Int :=
  (frames.getD i {}).durationMs

/-- The frame-advance loop of Tick, fuelled: while the elapsed time covers
the current frame's duration, subtract it and advance; at the end of the
sequence either wrap to frame 0 (looping) or clamp to the last frame and
finish.  Returns the new (frame, elapsed, done) triple, or none when the
fuel runs out (the source's loop would still be running). -/
def tickLoop (frames : List AnimationFrame) (loop : Bool) :
    Nat → Int → Nat → Int → Option (Nat × Int × Bool)
  | 0, _, _, _ => none
  | fuel + 1, elapsed, cur, dur =>
    if dur ≤ elapsed then
      let elapsed' := elapsed - dur
      let cur' := cur + 1
      if frames.length ≤ cur' then
        if loop then tickLoop frames loop fuel elapsed' 0 (durAt frames 0)
        else some (frames.length - 1, elapsed', true)
      else tickLoop frames loop fuel elapsed' cur' (durAt frames cur')
    else some (cur, elapsed, false)

/-- Tick's effect on the player state: a finished player, or an empty frame
list, leaves the state untouched; otherwise the delta is added to the
elapsed time and the frame-advance loop runs. -/
def tick (seq : AnimationSequence) (fuel : Nat) (st : PlayerState) (delta : Int) :
    Option PlayerState :=
  if st.done ∨ seq.frames.length = 0 then some st
  else
    match tickLoop seq.frames seq.loop fuel (st.elapsed + delta) st.currentFrame
        (durAt seq.frames st.currentFrame) with
    | none => none
    | some (cur, el, dn) => some ⟨cur, el, dn⟩

/-- A sequence of Tick calls. -/
def runTicks (seq : AnimationSequence) (fuel : Nat) :
    PlayerState → List Int → Option PlayerState
  | st, [] => some st
  | st, d :: ds =>
    match tick seq fuel st d with
    | none => none
    | some st' => runTicks seq fuel st' ds

/-- Termination of a single Tick call: some fuel suffices for the
frame-advance loop to exit. -/
def TickTerminates (seq : AnimationSequence) (st : PlayerState) (delta : Int) : Prop :=
  ∃ fuel st', tick seq fuel st delta = some st'

/-- The two-frame, 100ms-per-frame, non-looping sequence of claim C1. -/
def c1Seq : AnimationSequence := ⟨[{durationMs := 100}, {durationMs := 100}], false⟩

/-- A looping sequence whose frame durations sum to zero: the frame-advance
loop cycles forever once fed one millisecond. -/
def c10BadSeq : AnimationSequence := ⟨[{durationMs := 1}, {durationMs := -1}], true⟩

/-- A character whose eyes slot has a negative row index: the bounds guard
in the source passes and the line indexing panics, modelled as none. -/
def negSlotChar : Character :=
  { builtinCat with eyes := some ⟨-1, 3, 2, str "@@"⟩ }

/-- A character whose eyes slot row is past the last art row. -/
def highSlotChar : Character :=
  { builtinCat with eyes := some ⟨99, 3, 2, str "@@"⟩ }

/-- One write of the Overlay loop (the loop body at grid position p =
(row, column) of the overlaid canvas). -/
def ovStep (other : Canvas) (x y : Int) (acc : Canvas) (p : Nat × Nat) : Canvas :=
  let cell := (other.cells.getD p.1 []).getD p.2 transparentCell
  if cell.transparent then acc
  else acc.set (x + (p.2 : Int)) (y + (p.1 : Int)) cell.rune cell.style

/-- A concrete receiver canvas for the overlay witness. -/
def c7Recv : Canvas := (newCanvas 2 2).set 0 0 'A' {}

/-- A concrete overlaid canvas for the overlay witness. -/
def c7Other : Canvas := (newCanvas 2 1).set 1 0 'B' {}

/-- Well-formedness of a canvas row for flattening, tracking the number of
continuation columns the current symbol still spans: continuation cells hold
the zero rune, content cells carry ANSI-only style markup and are not
themselves the escape character (the spec's invariant on wide symbols and
styled cells). -/
def rowWF : Nat → List Cell → Bool
  | _, [] => true
  | skip + 1, cell :: rest => cell.rune == nullChar && rowWF skip rest
  | 0, cell :: rest =>
    if cell.rune = nullChar then rowWF 0 rest
    else
      decide (cell.rune ≠ escChar) &&
      decide (stripAnsiSt false cell.style.pre = ([], false)) &&
      decide (stripAnsiSt false cell.style.suf = ([], false)) &&
      rowWF (max (runeWidth cell.rune) 1 - 1) rest

/-- Trimming trailing blank lines (the spec-side description of Render's
final trimming, applied to plain lines). -/
def trimTrailingBlank (lines : List (List Char)) : List (List Char) :=
  (lines.reverse.dropWhile isBlankLine).reverse

/-- The counterexample canvas for claim C2: one content row above one
all-transparent row. -/
def c2Canvas : Canvas := (newCanvas 1 2).set 0 0 'A' {}

/-!  Theorems.  -/

lemma tick_done (seq : AnimationSequence) (fuel : Nat) (st : PlayerState) (delta : Int)
    (h : st.done = true) : tick seq fuel st delta = some st := by
  simp [tick, h]

lemma runTicks_done (seq : AnimationSequence) (fuel : Nat) (st : PlayerState)
    (h : st.done = true) : ∀ deltas, runTicks seq fuel st deltas = some st := by
  intro deltas
  induction deltas with
  | nil => rfl
  | cons d ds ih => rw [runTicks, tick_done seq fuel st d h]; exact ih

/-- Claim C1: for a FramePlayer on a two-frame non-looping sequence with
durations 100ms and 100ms, Tick(50) stays at frame 0, the next Tick(50)
moves to frame 1, a further Tick(100) reaches Done (IsComplete), and every
later Tick leaves the player at the last frame. -/
theorem c1_frame_player_trace :
    tick c1Seq 10 initialPlayerState 50 = some ⟨0, 50, false⟩ ∧
    tick c1Seq 10 ⟨0, 50, false⟩ 50 = some ⟨1, 0, false⟩ ∧
    tick c1Seq 10 ⟨1, 0, false⟩ 100 = some ⟨1, 0, true⟩ ∧
    (PlayerState.isComplete ⟨1, 0, true⟩ = true) ∧
    (⟨1, 0, true⟩ : PlayerState).currentFrame = c1Seq.frames.length - 1 ∧
    ∀ fuel deltas, runTicks c1Seq fuel ⟨1, 0, true⟩ deltas = some ⟨1, 0, true⟩ := by
  refine ⟨by decide, by decide, by decide, rfl, rfl, ?_⟩
  intro fuel deltas
  exact runTicks_done c1Seq fuel ⟨1, 0, true⟩ rfl deltas

/-- The frame-advance loop of a looping sequence never reports done, and
keeps the frame index inside the sequence. -/
lemma tickLoop_loop_invariant (frames : List AnimationFrame) (hfr : frames ≠ []) :
    ∀ fuel e cur dur cur' e' dn, cur < frames.length →
      tickLoop frames true fuel e cur dur = some (cur', e', dn) →
      dn = false ∧ cur' < frames.length := by
  intro fuel
  induction fuel with
  | zero => intro e cur dur cur' e' dn _ h; simp [tickLoop] at h
  | succ k ih =>
    intro e cur dur cur' e' dn hcur h
    rw [tickLoop] at h
    by_cases hc : dur ≤ e
    · rw [if_pos hc] at h
      by_cases hend : frames.length ≤ cur + 1
      · rw [if_pos hend] at h
        simp only [if_pos rfl] at h
        exact ih (e - dur) 0 (durAt frames 0) cur' e' dn
          (List.length_pos.mpr hfr) h
      · rw [if_neg hend] at h
        exact ih (e - dur) (cur + 1) (durAt frames (cur + 1)) cur' e' dn
          (by omega) h
    · rw [if_neg hc] at h
      simp only [Option.some.injEq, Prod.mk.injEq] at h
      obtain ⟨h1, h2, h3⟩ := h
      subst h1; subst h3
      exact ⟨rfl, hcur⟩

/-- A single Tick of a looping sequence preserves: not done, frame index in
range. -/
lemma tick_loop_preserves (seq : AnimationSequence) (hl : seq.loop = true)
    (hfr : seq.frames ≠ []) (fuel : Nat) (st st' : PlayerState) (delta : Int)
    (hdone : st.done = false) (hcur : st.currentFrame < seq.frames.length)
    (h : tick seq fuel st delta = some st') :
    st'.done = false ∧ st'.currentFrame < seq.frames.length := by
  rw [tick] at h
  rw [if_neg (by simp [hdone, List.length_eq_zero, hfr])] at h
  rcases hloop : tickLoop seq.frames seq.loop fuel (st.elapsed + delta)
      st.currentFrame (durAt seq.frames st.currentFrame) with _ | ⟨cur, el, dn⟩
  · rw [hloop] at h; exact absurd h (by simp)
  · rw [hloop] at h
    simp only [Option.some.injEq] at h
    subst h
    have := tickLoop_loop_invariant seq.frames hfr fuel (st.elapsed + delta)
      st.currentFrame (durAt seq.frames st.currentFrame) cur el dn hcur (hl ▸ hloop)
    exact this

/-- A run of Ticks of a looping sequence preserves the invariant. -/
lemma runTicks_loop_preserves (seq : AnimationSequence) (hl : seq.loop = true)
    (hfr : seq.frames ≠ []) (fuel : Nat) :
    ∀ deltas st st', st.done = false → st.currentFrame < seq.frames.length →
      runTicks seq fuel st deltas = some st' →
      st'.done = false ∧ st'.currentFrame < seq.frames.length := by
  intro deltas
  induction deltas with
  | nil =>
    intro st st' h1 h2 h
    simp only [runTicks, Option.some.injEq] at h
    subst h; exact ⟨h1, h2⟩
  | cons d ds ih =>
    intro st st' h1 h2 h
    rw [runTicks] at h
    rcases ht : tick seq fuel st d with _ | st1
    · rw [ht] at h; exact absurd h (by simp)
    · rw [ht] at h
      obtain ⟨g1, g2⟩ := tick_loop_preserves seq hl hfr fuel st st1 d h1 h2 ht
      exact ih st1 st' g1 g2 h

/-- Claim C8: a looping sequence with at least one frame never reaches Done
under any run of Ticks (the frame index always stays inside the sequence),
and advancing exactly past the last frame wraps the index back to 0. -/
theorem c8_loop_never_done (seq : AnimationSequence) (hl : seq.loop = true)
    (hfr : seq.frames ≠ []) :
    (∀ fuel deltas st', (∀ d ∈ deltas, 0 ≤ d) →
        runTicks seq fuel initialPlayerState deltas = some st' →
        st'.isComplete = false ∧ st'.currentFrame < seq.frames.length) ∧
    (∀ fuel, 2 ≤ fuel → (∀ f ∈ seq.frames, 0 < f.durationMs) →
        tick seq fuel ⟨seq.frames.length - 1, 0, false⟩
          (durAt seq.frames (seq.frames.length - 1)) = some ⟨0, 0, false⟩) := by
  constructor
  · intro fuel deltas st' _ h
    exact runTicks_loop_preserves seq hl hfr fuel deltas initialPlayerState st'
      rfl (List.length_pos.mpr hfr) h
  · intro fuel hfuel hpos
    obtain ⟨k, rfl⟩ : ∃ k, fuel = k + 2 := ⟨fuel - 2, by omega⟩
    have hlen : 0 < seq.frames.length := List.length_pos.mpr hfr
    have hdur0 : 0 < durAt seq.frames 0 := by
      have hm : seq.frames.getD 0 {} ∈ seq.frames := by
        rw [List.getD_eq_getElem seq.frames {} hlen]
        exact List.getElem_mem hlen
      exact hpos _ hm
    rw [tick]
    rw [if_neg (by simp [List.length_eq_zero, hfr])]
    dsimp only
    rw [zero_add]
    have hstep1 : tickLoop seq.frames seq.loop (k + 2)
        (durAt seq.frames (seq.frames.length - 1)) (seq.frames.length - 1)
        (durAt seq.frames (seq.frames.length - 1))
        = tickLoop seq.frames seq.loop (k + 1) 0 0 (durAt seq.frames 0) := by
      rw [tickLoop]
      rw [if_pos le_rfl]
      rw [if_pos (by omega)]
      rw [if_pos hl]
      rw [sub_self]
    rw [hstep1, tickLoop]
    rw [if_neg (by omega)]

/-- Witness for claim C8 at a concrete one-frame looping sequence. -/
theorem c8_loop_never_done_witness :
    (⟨0, 50, false⟩ : PlayerState).isComplete = false ∧
    (⟨0, 50, false⟩ : PlayerState).currentFrame <
      (⟨[{durationMs := 100}], true⟩ : AnimationSequence).frames.length :=
  (c8_loop_never_done ⟨[{durationMs := 100}], true⟩ rfl (by decide)).1
    10 [50, 100] ⟨0, 50, false⟩ (by decide) (by decide)

lemma c10_cycle : ∀ n,
    tickLoop c10BadSeq.frames true n 1 0 1 = none ∧
    tickLoop c10BadSeq.frames true n 0 1 (-1) = none := by
  intro n
  induction n with
  | zero => exact ⟨rfl, rfl⟩
  | succ k ih =>
    constructor
    · rw [tickLoop]
      rw [if_pos le_rfl]
      rw [if_neg (by norm_num [c10BadSeq])]
      have h1 : (1 : Int) - 1 = 0 := by norm_num
      have h2 : durAt c10BadSeq.frames (0 + 1) = -1 := rfl
      rw [h1, h2]
      exact ih.2
    · rw [tickLoop]
      rw [if_pos (by norm_num)]
      rw [if_pos (by norm_num [c10BadSeq])]
      rw [if_pos rfl]
      have h1 : (0 : Int) - (-1) = 1 := by norm_num
      have h2 : durAt c10BadSeq.frames 0 = 1 := rfl
      rw [h1, h2]
      exact ih.1

/-- Counterexample to claim C10 as stated: a looping sequence that contains
a frame of positive duration, a freshly created player, and a non-negative
delta on which Tick never exits its frame-advance loop. -/
theorem c10_counterexample :
    c10BadSeq.loop = true ∧ (∃ f ∈ c10BadSeq.frames, 0 < f.durationMs) ∧
    (0 : Int) ≤ 1 ∧ ¬ TickTerminates c10BadSeq initialPlayerState 1 := by
  refine ⟨rfl, ⟨{durationMs := 1}, by decide, by decide⟩, by decide, ?_⟩
  rintro ⟨fuel, st', h⟩
  rw [tick] at h
  rw [if_neg (by decide)] at h
  have hn : tickLoop c10BadSeq.frames c10BadSeq.loop fuel
      (initialPlayerState.elapsed + 1) initialPlayerState.currentFrame
      (durAt c10BadSeq.frames initialPlayerState.currentFrame) = none :=
    (c10_cycle fuel).1
  rw [hn] at h
  simp at h

lemma durAt_mem (frames : List AnimationFrame) (cur : Nat) (h : cur < frames.length) :
    frames.getD cur {} ∈ frames := by
  rw [List.getD_eq_getElem frames {} h]
  exact List.getElem_mem h

/-- The frame-advance loop of a non-looping sequence exits within one step
per remaining frame. -/
lemma tickLoop_nonloop_terminates (frames : List AnimationFrame) :
    ∀ fuel cur e dur, cur < frames.length → frames.length - cur ≤ fuel →
      (tickLoop frames false fuel e cur dur).isSome := by
  intro fuel
  induction fuel with
  | zero => intro cur e dur h1 h2; exact absurd h2 (by omega)
  | succ k ih =>
    intro cur e dur h1 h2
    rw [tickLoop]
    by_cases hc : dur ≤ e
    · rw [if_pos hc]
      by_cases hend : frames.length ≤ cur + 1
      · rw [if_pos hend]
        rw [if_neg (by simp)]
        simp
      · rw [if_neg hend]
        exact ih (cur + 1) (e - dur) (durAt frames (cur + 1)) (by omega) (by omega)
    · rw [if_neg hc]; simp

/-- The frame-advance loop of a looping sequence with all-positive frame
durations drains the elapsed time and exits. -/
lemma tickLoop_loop_pos_terminates (frames : List AnimationFrame)
    (hpos : ∀ f ∈ frames, 0 < f.durationMs) :
    ∀ fuel e cur, cur < frames.length → e.toNat < fuel →
      (tickLoop frames true fuel e cur (durAt frames cur)).isSome := by
  intro fuel
  induction fuel with
  | zero => intro e cur h1 h2; exact absurd h2 (by omega)
  | succ k ih =>
    intro e cur h1 h2
    have hdur : 0 < durAt frames cur := hpos _ (durAt_mem frames cur h1)
    rw [tickLoop]
    by_cases hc : durAt frames cur ≤ e
    · rw [if_pos hc]
      have he' : (e - durAt frames cur).toNat < k := by omega
      by_cases hend : frames.length ≤ cur + 1
      · rw [if_pos hend]
        rw [if_pos rfl]
        exact ih (e - durAt frames cur) 0 (by omega) he'
      · rw [if_neg hend]
        exact ih (e - durAt frames cur) (cur + 1) (by omega) he'
    · rw [if_neg hc]; simp

lemma tick_of_tickLoop (seq : AnimationSequence) (fuel : Nat) (st : PlayerState)
    (delta : Int) (trip : Nat × Int × Bool)
    (hdone : st.done = false) (hfr : seq.frames ≠ [])
    (h : tickLoop seq.frames seq.loop fuel (st.elapsed + delta) st.currentFrame
      (durAt seq.frames st.currentFrame) = some trip) :
    tick seq fuel st delta = some ⟨trip.1, trip.2.1, trip.2.2⟩ := by
  rw [tick, if_neg (by simp [hdone, List.length_eq_zero, hfr])]
  rcases trip with ⟨a, b, c⟩
  rw [h]

/-- Claim C10, amended: Tick terminates for every non-negative delta and
every in-range player state, provided the sequence is non-looping or every
frame has a positive duration. -/
theorem c10_tick_terminates (seq : AnimationSequence) (st : PlayerState) (delta : Int)
    (hd : 0 ≤ delta)
    (hcur : st.currentFrame < seq.frames.length ∨ seq.frames = [])
    (hdur : seq.loop = false ∨ ∀ f ∈ seq.frames, 0 < f.durationMs) :
    TickTerminates seq st delta := by
  by_cases hdone : st.done = true
  · exact ⟨1, st, tick_done seq 1 st delta hdone⟩
  have hdone' : st.done = false := by simp at hdone; exact hdone
  rcases hcur with hcur | hfr
  · have hne : seq.frames ≠ [] := by
      intro hh; rw [hh] at hcur; simp at hcur
    have finish : ∀ fuel,
        (tickLoop seq.frames seq.loop fuel (st.elapsed + delta) st.currentFrame
          (durAt seq.frames st.currentFrame)).isSome →
        TickTerminates seq st delta := by
      intro fuel hs
      obtain ⟨trip, htrip⟩ := Option.isSome_iff_exists.mp hs
      exact ⟨fuel, _, tick_of_tickLoop seq fuel st delta trip hdone' hne htrip⟩
    cases hl : seq.loop with
    | false =>
      refine finish (seq.frames.length + 1) ?_
      rw [hl]
      exact tickLoop_nonloop_terminates seq.frames (seq.frames.length + 1)
        st.currentFrame (st.elapsed + delta) (durAt seq.frames st.currentFrame)
        hcur (by omega)
    | true =>
      rcases hdur with hnl | hpos
      · rw [hl] at hnl; exact absurd hnl (by simp)
      · refine finish ((st.elapsed + delta).toNat + 1) ?_
        rw [hl]
        exact tickLoop_loop_pos_terminates seq.frames hpos
          ((st.elapsed + delta).toNat + 1) (st.elapsed + delta) st.currentFrame
          hcur (by omega)
  · exact ⟨1, st, by rw [tick, if_pos (by simp [hfr])]⟩

/-- Witness for the amended claim C10 at a concrete looping sequence with
positive durations. -/
theorem c10_tick_terminates_witness :
    TickTerminates ⟨[{durationMs := 100}, {durationMs := 50}], true⟩
      initialPlayerState 500 :=
  c10_tick_terminates ⟨[{durationMs := 100}, {durationMs := 50}], true⟩
    initialPlayerState 500 (by decide) (Or.inl (by decide)) (Or.inr (by decide))

/-!  Claim C4: greedy wrap width bound.  -/

lemma strWidth_append (a b : List Char) : strWidth (a ++ b) = strWidth a + strWidth b := by
  simp [strWidth]

/-- Every line the fill loop emits is within the width or is a single input
word. -/
lemma wrapGo_sound (w : Int) (allWords : List (List Char)) :
    ∀ words lines current, (∀ x ∈ words, x ∈ allWords) →
      (∀ l ∈ lines, (strWidth l : Int) ≤ w ∨ l ∈ allWords) →
      (current = [] ∨ (strWidth current : Int) ≤ w ∨ current ∈ allWords) →
      ∀ l ∈ wrapGo w lines words current,
        (strWidth l : Int) ≤ w ∨ l ∈ allWords := by
  intro words
  induction words with
  | nil =>
    intro lines current _ hlines hcur l hl
    rw [wrapGo] at hl
    by_cases hc : current ≠ []
    · rw [if_pos hc] at hl
      rcases List.mem_append.mp hl with hm | hm
      · exact hlines l hm
      · have : l = current := by simpa using hm
        subst this
        rcases hcur with h | h
        · exact absurd h hc
        · exact h
    · rw [if_neg hc] at hl
      exact hlines l hl
  | cons word rest ih =>
    intro lines current hsub hlines hcur l hl
    rw [wrapGo] at hl
    have hw : word ∈ allWords := hsub word (by simp)
    have hrest : ∀ x ∈ rest, x ∈ allWords := fun x hx => hsub x (by simp [hx])
    by_cases hc : current = []
    · rw [if_pos hc] at hl
      exact ih lines word hrest hlines (Or.inr (Or.inr hw)) l hl
    · rw [if_neg hc] at hl
      by_cases hfit : (strWidth (current ++ ' ' :: word) : Int) ≤ w
      · rw [if_pos hfit] at hl
        exact ih lines (current ++ ' ' :: word) hrest hlines (Or.inr (Or.inl hfit)) l hl
      · rw [if_neg hfit] at hl
        refine ih (lines ++ [current]) word hrest ?_ (Or.inr (Or.inr hw)) l hl
        intro l2 hl2
        rcases List.mem_append.mp hl2 with hm | hm
        · exact hlines l2 hm
        · have : l2 = current := by simpa using hm
          subst this
          rcases hcur with h | h
          · exact absurd h hc
          · exact h

/-- Claim C4: every line of wrapText fits the width except a line that is a
single over-wide input word, kept whole; the empty text wraps to no lines. -/
theorem c4_wrap_width_bound (t : List Char) (w : Int) (hw : 0 ≤ w) :
    (∀ l ∈ wrapText t w, (strWidth l : Int) ≤ w ∨ l ∈ splitWords t) ∧
    wrapText [] w = [] := by
  refine ⟨?_, rfl⟩
  intro l hl
  rw [wrapText] at hl
  by_cases ht : t = []
  · rw [if_pos ht] at hl; exact absurd hl (by simp)
  · rw [if_neg ht] at hl
    exact wrapGo_sound w (splitWords t) (splitWords t) [] []
      (fun x hx => hx) (by simp) (Or.inl rfl) l hl

/-- Witness for claim C4 at a concrete text and width. -/
theorem c4_wrap_width_bound_witness :
    (0 : Int) ≤ 7 ∧
    ((∀ l ∈ wrapText (str "a quick extraordinarily big fox") 7,
        (strWidth l : Int) ≤ 7 ∨ l ∈ splitWords (str "a quick extraordinarily big fox")) ∧
      wrapText [] 7 = []) :=
  ⟨by decide, c4_wrap_width_bound (str "a quick extraordinarily big fox") 7 (by decide)⟩

/-!  Claim C9: placeholder substitution and centering.  -/

lemma repeatS_spaces (n : Int) : repeatS [' '] n = List.replicate n.toNat ' ' := by
  rw [repeatS]
  by_cases h : n ≤ 0
  · rw [if_pos h]
    have : n.toNat = 0 := by omega
    rw [this]; rfl
  · rw [if_neg h]
    generalize n.toNat = k
    induction k with
    | zero => rfl
    | succ m ih =>
      rw [List.range_succ, List.foldl_append, ih]
      simp [List.replicate_succ']

/-- Splitting view of replaceFirstAux: when the pattern occurs, the line
splits around its first occurrence and the replacement is spliced in. -/
lemma replaceFirstAux_split (old : List Char) (hold : old ≠ []) :
    ∀ line, containsSub line old = true →
      ∃ pre post, line = pre ++ old ++ post ∧
        ∀ new, replaceFirstAux old new line = pre ++ new ++ post := by
  intro line
  induction line with
  | nil =>
    intro h
    rw [containsSub] at h
    have : old = [] := by
      cases old with
      | nil => rfl
      | cons a t => simp [List.isPrefixOf] at h
    exact absurd this hold
  | cons c rest ih =>
    intro h
    by_cases hp : old.isPrefixOf (c :: rest)
    · obtain ⟨t, ht⟩ := List.isPrefixOf_iff_prefix.mp hp
      refine ⟨[], t, by simp [← ht], ?_⟩
      intro new
      rw [replaceFirstAux, if_pos hp, ← ht]
      simp [List.drop_left]
    · have hrest : containsSub rest old = true := by
        rw [containsSub] at h
        rcases Bool.or_eq_true_iff.mp h with h1 | h1
        · exact absurd h1 hp
        · exact h1
      obtain ⟨pre, post, heq, hrepl⟩ := ih hrest
      refine ⟨c :: pre, post, by simp [heq], ?_⟩
      intro new
      rw [replaceFirstAux, if_neg hp, hrepl new]
      simp

/-- Claim C9, amended to non-empty placeholders: replaceSlot splices a
centered value in place of the placeholder's first occurrence; a value at
least as wide as the slot gets no padding at all, a narrower value is
centered in the declared slot width with the left padding the integer half
of the leftover and any odd leftover biased right. -/
theorem c9_slot_centering (line : List Char) (slot : Slot) (value : List Char)
    (hph : slot.placeholder ≠ []) (hc : containsSub line slot.placeholder = true) :
    ∃ pre post l r,
      line = pre ++ slot.placeholder ++ post ∧
      replaceSlot line slot value =
        pre ++ (List.replicate l ' ' ++ value ++ List.replicate r ' ') ++ post ∧
      (l : Int) = ((if slot.width < (strWidth value : Int) then (strWidth value : Int)
          else slot.width) - (strWidth value : Int)) / 2 ∧
      ((slot.width : Int) ≤ (strWidth value : Int) → l = 0 ∧ r = 0) ∧
      ((strWidth value : Int) ≤ slot.width →
        (l : Int) + (strWidth value : Int) + (r : Int) = slot.width) ∧
      l ≤ r ∧ r ≤ l + 1 := by
  obtain ⟨pre, post, heq, hrepl⟩ := replaceFirstAux_split slot.placeholder hph line hc
  set vw : Int := (strWidth value : Int) with hvw
  set sw : Int := if slot.width < vw then vw else slot.width with hsw
  have hswge : vw ≤ sw := by rw [hsw]; split <;> omega
  have hpad : 0 ≤ sw - vw := by omega
  refine ⟨pre, post, ((sw - vw) / 2).toNat, (sw - vw - (sw - vw) / 2).toNat, heq, ?_, ?_, ?_, ?_, ?_, ?_⟩
  · rw [replaceSlot, if_neg (by simp [hph])]
    rw [replaceFirst, if_neg hph]
    rw [hrepl]
    rw [repeatS_spaces, repeatS_spaces]
  · omega
  · intro hge
    constructor <;> · rw [hsw] at *; split at hswge <;> omega
  · intro hle
    have : sw = slot.width := by rw [hsw]; split <;> omega
    omega
  · omega
  · omega

/-- Counterexample to claim C9 as stated: with an empty placeholder (which
every line contains) and a value wider than the slot, replaceSlot leaves
the line unchanged instead of splicing the value in at the placeholder's
first occurrence. -/
theorem c9_counterexample :
    containsSub (str "abc") [] = true ∧
    (1 : Int) < (strWidth (str "XX") : Int) ∧
    replaceSlot (str "abc") ⟨0, 0, 1, []⟩ (str "XX") = str "abc" ∧
    replaceSlot (str "abc") ⟨0, 0, 1, []⟩ (str "XX") ≠
      replaceFirst (str "abc") [] (str "XX") := by
  refine ⟨by decide, by decide, by decide, by decide⟩

/-- Witness for the amended claim C9 at a concrete line and slot. -/
theorem c9_slot_centering_witness :
    (str "@@" : List Char) ≠ [] ∧
    containsSub (str " ( @@ ) ") (str "@@") = true ∧
    ∃ pre post l r,
      str " ( @@ ) " = pre ++ str "@@" ++ post ∧
      replaceSlot (str " ( @@ ) ") ⟨1, 3, 7, str "@@"⟩ (str "oo") =
        pre ++ (List.replicate l ' ' ++ str "oo" ++ List.replicate r ' ') ++ post ∧
      (l : Int) = ((if (7 : Int) < (strWidth (str "oo") : Int) then (strWidth (str "oo") : Int)
          else 7) - (strWidth (str "oo") : Int)) / 2 ∧
      (((7 : Int)) ≤ (strWidth (str "oo") : Int) → l = 0 ∧ r = 0) ∧
      ((strWidth (str "oo") : Int) ≤ 7 →
        (l : Int) + (strWidth (str "oo") : Int) + (r : Int) = 7) ∧
      l ≤ r ∧ r ≤ l + 1 :=
  ⟨by decide, by decide,
    c9_slot_centering (str " ( @@ ) ") ⟨1, 3, 7, str "@@"⟩ (str "oo")
      (by decide) (by decide)⟩

/-!  Claim C3: out-of-range slot rows.  -/

lemma slotApply_none (lines : List (List Char)) (v : List Char) :
    slotApply lines none v = some (lines, none) := rfl

lemma slotApply_high (lines : List (List Char)) (s : Slot) (v : List Char)
    (h : (lines.length : Int) ≤ s.line) :
    slotApply lines (some s) v = some (lines, none) := by
  rw [slotApply]
  rw [if_neg (by omega)]

lemma slotApply_length (lines : List (List Char)) (slotOpt : Option Slot) (v : List Char)
    (lines' : List (List Char)) (info : Option (Int × List Int))
    (h : slotApply lines slotOpt v = some (lines', info)) :
    lines'.length = lines.length := by
  cases slotOpt with
  | none =>
    simp only [slotApply, Option.some.injEq, Prod.mk.injEq] at h
    rw [← h.1]
  | some s =>
    rw [slotApply] at h
    split_ifs at h
    · simp only [Option.some.injEq, Prod.mk.injEq] at h
      rw [← h.1, List.length_set]
    · simp only [Option.some.injEq, Prod.mk.injEq] at h
      rw [← h.1]

lemma slotApply_isSome (lines : List (List Char)) (slotOpt : Option Slot) (v : List Char)
    (h : ∀ s, slotOpt = some s → 0 ≤ s.line) :
    (slotApply lines slotOpt v).isSome = true := by
  cases slotOpt with
  | none => rfl
  | some s =>
    rw [slotApply]
    by_cases hl : s.line < (lines.length : Int)
    · rw [if_pos hl]
      rw [if_neg (by have := h s rfl; omega)]
      rfl
    · rw [if_neg hl]; rfl

/-- Claim C3, amended: a slot whose row index is at or past the end of the
art is ignored by ToCanvasStyled, exactly as if the slot were absent; and
when no present slot has a negative row index, the render returns a canvas
(no panic).  A negative row index instead escapes the source's bounds guard
(see the counterexample). -/
theorem c3_out_of_range_slot (ch : Character) (e m : List Char) (st : CharacterStyles) :
    (∀ s, ch.eyes = some s → (ch.art.length : Int) ≤ s.line →
        ch.toCanvasStyled e m st =
          Character.toCanvasStyled { ch with eyes := none } e m st) ∧
    (∀ s, ch.mouth = some s → (ch.art.length : Int) ≤ s.line →
        ch.toCanvasStyled e m st =
          Character.toCanvasStyled { ch with mouth := none } e m st) ∧
    ((∀ s, ch.eyes = some s → 0 ≤ s.line) → (∀ s, ch.mouth = some s → 0 ≤ s.line) →
        (ch.toCanvasStyled e m st).isSome = true) := by
  refine ⟨?_, ?_, ?_⟩
  · intro s heq hhigh
    rw [Character.toCanvasStyled, Character.toCanvasStyled]
    by_cases hart : ch.art = []
    · rw [if_pos hart, if_pos hart]
    · rw [if_neg hart, if_neg hart]
      rw [heq, slotApply_high ch.art s e hhigh, slotApply_none]
  · intro s heq hhigh
    rw [Character.toCanvasStyled, Character.toCanvasStyled]
    by_cases hart : ch.art = []
    · rw [if_pos hart, if_pos hart]
    · rw [if_neg hart, if_neg hart]
      dsimp only
      rcases hsa : slotApply ch.art ch.eyes e with _ | p
      · rfl
      · rcases p with ⟨lines1, info1⟩
        dsimp only
        have hlen : (lines1.length : Int) ≤ s.line := by
          rw [slotApply_length ch.art ch.eyes e lines1 info1 hsa]
          exact hhigh
        rw [heq, slotApply_high lines1 s m hlen, slotApply_none]
  · intro hey hmo
    rw [Character.toCanvasStyled]
    by_cases hart : ch.art = []
    · rw [if_pos hart]; rfl
    · rw [if_neg hart]
      obtain ⟨p1, hp1⟩ := Option.isSome_iff_exists.mp (slotApply_isSome ch.art ch.eyes e hey)
      rcases p1 with ⟨lines1, info1⟩
      rw [hp1]
      dsimp only
      obtain ⟨p2, hp2⟩ := Option.isSome_iff_exists.mp (slotApply_isSome lines1 ch.mouth m hmo)
      rcases p2 with ⟨lines2, info2⟩
      rw [hp2]
      rfl

/-- Counterexample to claim C3 as stated: a negative slot row is not
ignored; rendering fails (the source panics on the negative index). -/
theorem c3_counterexample :
    negSlotChar.toCanvasStyled (str "oo") (str "w") {} = none := by decide

/-- Witness for the amended claim C3 at a concrete character. -/
theorem c3_out_of_range_slot_witness :
    highSlotChar.toCanvasStyled (str "oo") (str "w") {} =
      Character.toCanvasStyled { highSlotChar with eyes := none } (str "oo") (str "w") {} ∧
    (highSlotChar.toCanvasStyled (str "oo") (str "w") {}).isSome = true :=
  ⟨(c3_out_of_range_slot highSlotChar (str "oo") (str "w") {}).1 ⟨99, 3, 2, str "@@"⟩
      rfl (by decide),
    (c3_out_of_range_slot highSlotChar (str "oo") (str "w") {}).2.2
      (fun s hs => by
        have h2 : some (⟨99, 3, 2, str "@@"⟩ : Slot) = some s := hs
        cases Option.some.inj h2
        decide)
      (fun s hs => by
        have h2 : some (⟨2, 4, 1, str "Y"⟩ : Slot) = some s := hs
        cases Option.some.inj h2
        decide)⟩

/-!  Claims C6 and C7: composition primitives.  List set/getD toolkit.  -/

lemma set_self {α : Type} (l : List α) (i : Nat) (h : i < l.length) :
    l.set i l[i] = l := by
  apply List.ext_getElem (by simp)
  intro j h1 h2
  by_cases hij : i = j
  · subst hij; simp
  · rw [List.getElem_set_ne hij]

lemma set_getD_self {α : Type} (l : List α) (i : Nat) (d : α) :
    l.set i (l.getD i d) = l := by
  by_cases h : i < l.length
  · rw [List.getD_eq_getElem l d h]; exact set_self l i h
  · exact List.set_eq_of_length_le (by omega)

lemma getD_len_le {α : Type} (l : List α) (j : Nat) (d : α) (h : l.length ≤ j) :
    l.getD j d = d := by
  simp [List.getD_eq_getElem?_getD, List.getElem?_eq_none h]

lemma getD_set {α : Type} (l : List α) (i j : Nat) (a d : α) :
    (l.set i a).getD j d = if i = j ∧ j < l.length then a else l.getD j d := by
  by_cases hj : j < l.length
  · rw [List.getD_eq_getElem _ d (by simpa using hj), List.getD_eq_getElem l d hj]
    by_cases hij : i = j
    · subst hij; simp [hj]
    · rw [List.getElem_set_ne hij, if_neg (by tauto)]
  · rw [if_neg (by tauto), getD_len_le _ _ _ (by simpa using (by omega : l.length ≤ j)),
      getD_len_le _ _ _ (by omega)]

lemma mem_set {α : Type} : ∀ (l : List α) (n : Nat) (a : α), ∀ b ∈ l.set n a, b ∈ l ∨ b = a := by
  intro l
  induction l with
  | nil => intro n a b hb; simp at hb
  | cons c t ih =>
    intro n a b hb
    cases n with
    | zero =>
      rcases List.mem_cons.mp hb with h | h
      · exact Or.inr h
      · exact Or.inl (List.mem_cons_of_mem c h)
    | succ m =>
      rcases List.mem_cons.mp hb with h | h
      · exact Or.inl (h ▸ List.mem_cons_self c t)
      · rcases ih m a b h with h2 | h2
        · exact Or.inl (List.mem_cons_of_mem c h2)
        · exact Or.inr h2

lemma foldl_preserve {α β : Type} (f : β → α → β) (g : β → Nat)
    (hf : ∀ c a, g (f c a) = g c) : ∀ (l : List α) (c : β), g (l.foldl f c) = g c := by
  intro l
  induction l with
  | nil => intro c; rfl
  | cons a t ih => intro c; rw [List.foldl_cons, ih, hf]

lemma foldl_set_length {α : Type} (f : Nat → α) (xs : List Nat) (init : List α) :
    (xs.foldl (fun l i => l.set i (f i)) init).length = init.length :=
  foldl_preserve _ List.length (fun c a => List.length_set c a (f a)) xs init

lemma foldl_set_range_getD {α : Type} (f : Nat → α) (d : α) (n : Nat) (init : List α) (j : Nat) :
    ((List.range n).foldl (fun l i => l.set i (f i)) init).getD j d =
      if j < n ∧ j < init.length then f j else init.getD j d := by
  induction n with
  | zero => simp
  | succ m ih =>
    rw [List.range_succ, List.foldl_append, List.foldl_cons, List.foldl_nil]
    rw [getD_set, foldl_set_length, ih]
    by_cases hj : j < init.length
    · by_cases hjm : j < m
      · rw [if_neg (by omega), if_pos (by omega), if_pos (by omega)]
      · by_cases hjem : m = j
        · rw [if_pos (by omega), if_pos (by omega)]; rw [hjem]
        · rw [if_neg (by omega), if_neg (by omega), if_neg (by omega)]
    · rw [if_neg (by omega), if_neg (by omega), if_neg (by omega)]

/-- Rebuilding a list by setting every index to the target's entry. -/
lemma foldl_set_rebuild {α : Type} (d : α) (target init : List α)
    (hlen : init.length = target.length) :
    (List.range target.length).foldl (fun l i => l.set i (target.getD i d)) init = target := by
  apply List.ext_getElem (by rw [foldl_set_length]; exact hlen)
  intro j h1 h2
  rw [← List.getD_eq_getElem _ d h1, ← List.getD_eq_getElem _ d h2]
  rw [foldl_set_range_getD]
  rw [if_pos (by constructor <;> omega)]

lemma putCell_cells (c : Canvas) (x y : Nat) (cell : Cell) :
    (c.putCell x y cell).cells = c.cells.set y ((c.cells.getD y []).set x cell) := rfl

/-- The inner clone loop rewrites one row of the canvas. -/
lemma clone_inner_cells (y : Nat) (f : Nat → Cell) (xs : List Nat) :
    ∀ acc : Canvas, y < acc.cells.length →
      (xs.foldl (fun a2 x => a2.putCell x y (f x)) acc).cells
        = acc.cells.set y (xs.foldl (fun row x => row.set x (f x)) (acc.cells.getD y [])) := by
  induction xs with
  | nil => intro acc _; rw [List.foldl_nil, List.foldl_nil, set_getD_self]
  | cons x rest ih =>
    intro acc hy
    rw [List.foldl_cons, List.foldl_cons]
    rw [ih (acc.putCell x y (f x)) (by rw [putCell_cells, List.length_set]; exact hy)]
    rw [putCell_cells]
    rw [getD_set, if_pos ⟨rfl, hy⟩, List.set_set]

lemma clone_width (c : Canvas) : c.clone.width = (newCanvas (c.width : Int) (c.height : Int)).width := by
  rw [Canvas.clone]
  refine foldl_preserve _ Canvas.width ?_ _ _
  intro acc y
  refine foldl_preserve _ Canvas.width ?_ _ _
  intro acc2 x
  rfl

lemma clone_height (c : Canvas) : c.clone.height = (newCanvas (c.width : Int) (c.height : Int)).height := by
  rw [Canvas.clone]
  refine foldl_preserve _ Canvas.height ?_ _ _
  intro acc y
  refine foldl_preserve _ Canvas.height ?_ _ _
  intro acc2 x
  rfl

lemma newCanvas_pos_width (w h : Int) (hw : 1 ≤ w) : (newCanvas w h).width = w.toNat := by
  rw [newCanvas]; simp only; rw [if_neg (by omega)]

lemma newCanvas_pos_height (w h : Int) (hh : 1 ≤ h) : (newCanvas w h).height = h.toNat := by
  rw [newCanvas]; simp only; rw [if_neg (by omega)]

lemma newCanvas_cells (w h : Int) :
    (newCanvas w h).cells =
      List.replicate (newCanvas w h).height (List.replicate (newCanvas w h).width transparentCell) := rfl

/-- Clone of a well-formed canvas is the canvas itself. -/
lemma clone_eq_self (c : Canvas) (hWF : c.WF) : c.clone = c := by
  obtain ⟨hw, hh, hlen, hrows⟩ := hWF
  have hbw : (newCanvas (c.width : Int) (c.height : Int)).width = c.width := by
    rw [newCanvas_pos_width _ _ (by omega)]; omega
  have hbh : (newCanvas (c.width : Int) (c.height : Int)).height = c.height := by
    rw [newCanvas_pos_height _ _ (by omega)]; omega
  have hcells : c.clone.cells = c.cells := by
    rw [Canvas.clone]
    have main : ∀ ys : List Nat, (∀ y ∈ ys, y < c.height) →
        ∀ acc : Canvas, acc.cells.length = c.height →
          (∀ j, j < c.height → (acc.cells.getD j []).length = c.width) →
          (ys.foldl (fun a y => (List.range c.width).foldl
              (fun a2 x => a2.putCell x y ((c.cells.getD y []).getD x transparentCell)) a) acc).cells
            = ys.foldl (fun cs y => cs.set y (c.cells.getD y [])) acc.cells := by
      intro ys
      induction ys with
      | nil => intro _ acc _ _; rw [List.foldl_nil, List.foldl_nil]
      | cons y rest ih =>
        intro hys acc hacclen haccrow
        have hy : y < c.height := hys y (by simp)
        have hrowy : (c.cells.getD y []).length = c.width := by
          have : c.cells.getD y [] ∈ c.cells := by
            rw [List.getD_eq_getElem c.cells [] (by omega)]
            exact List.getElem_mem (by omega)
          exact hrows _ this
        rw [List.foldl_cons, List.foldl_cons]
        have hinner := clone_inner_cells y (fun x => (c.cells.getD y []).getD x transparentCell)
          (List.range c.width) acc (by omega)
        have hrebuild : (List.range c.width).foldl
            (fun row x => row.set x ((c.cells.getD y []).getD x transparentCell))
            (acc.cells.getD y []) = c.cells.getD y [] := by
          have := foldl_set_rebuild transparentCell (c.cells.getD y []) (acc.cells.getD y [])
            (by rw [haccrow y hy, hrowy])
          rw [hrowy] at this
          exact this
        have hstep : ((List.range c.width).foldl
            (fun a2 x => a2.putCell x y ((c.cells.getD y []).getD x transparentCell)) acc).cells
            = acc.cells.set y (c.cells.getD y []) := by
          rw [hinner, hrebuild]
        rw [ih (fun z hz => hys z (by simp [hz])) _ (by rw [hstep, List.length_set]; exact hacclen)
          (fun j hj => by
            rw [hstep, getD_set]
            by_cases hyj : y = j ∧ j < acc.cells.length
            · rw [if_pos hyj]; exact hrowy
            · rw [if_neg hyj]; exact haccrow j hj)]
        rw [hstep]
    rw [main (List.range c.height) (by intro z hz; simpa using hz)
      (newCanvas (c.width : Int) (c.height : Int))
      (by rw [newCanvas_cells, List.length_replicate, hbh])
      (by
        intro j hj
        rw [newCanvas_cells, hbh, hbw]
        rw [List.getD_eq_getElem _ [] (by rw [List.length_replicate]; exact hj)]
        rw [List.getElem_replicate, List.length_replicate])]
    rw [newCanvas_cells, hbh, hbw]
    have := foldl_set_rebuild ([] : List Cell) c.cells
      (List.replicate c.height (List.replicate c.width transparentCell)) (by rw [List.length_replicate, hlen])
    rw [hlen] at this
    exact this
  have hwid : c.clone.width = c.width := by rw [clone_width, hbw]
  have hhei : c.clone.height = c.height := by rw [clone_height, hbh]
  rcases hcl : c.clone with ⟨w1, h1, cs1⟩
  rcases hc2 : c with ⟨w2, h2, cs2⟩
  rw [hcl, hc2] at hwid hhei hcells
  simp only at hwid hhei hcells
  rw [hwid, hhei, hcells]

lemma set_width (c : Canvas) (x y : Int) (r : Char) (st : Style) :
    (c.set x y r st).width = c.width := by
  rw [Canvas.set]; split <;> rfl

lemma set_height (c : Canvas) (x y : Int) (r : Char) (st : Style) :
    (c.set x y r st).height = c.height := by
  rw [Canvas.set]; split <;> rfl

lemma overlayCells_width (c other : Canvas) (x y : Int) :
    (c.overlayCells other x y).width = c.width := by
  rw [Canvas.overlayCells]
  refine foldl_preserve _ Canvas.width ?_ _ _
  intro acc oy
  refine foldl_preserve _ Canvas.width ?_ _ _
  intro acc2 ox
  dsimp only
  split
  · rfl
  · rw [set_width]

lemma overlayCells_height (c other : Canvas) (x y : Int) :
    (c.overlayCells other x y).height = c.height := by
  rw [Canvas.overlayCells]
  refine foldl_preserve _ Canvas.height ?_ _ _
  intro acc oy
  refine foldl_preserve _ Canvas.height ?_ _ _
  intro acc2 ox
  dsimp only
  split
  · rfl
  · rw [set_height]

lemma overlay_width (c : Canvas) (o : Option Canvas) (x y : Int) :
    (c.overlay o x y).width = c.width := by
  cases o with
  | none => rfl
  | some oc => exact overlayCells_width c oc x y

lemma overlay_height (c : Canvas) (o : Option Canvas) (x y : Int) :
    (c.overlay o x y).height = c.height := by
  cases o with
  | none => rfl
  | some oc => exact overlayCells_height c oc x y

/-- Claim C6: merge and stack dimensions, and the nil-operand conventions. -/
theorem c6_merge_stack_dims (A B : Canvas) (g : Int) (hg : 0 ≤ g)
    (hA : A.WF) (hB : B.WF) :
    ((merge (some A) (some B) g).width : Int) = (A.width : Int) + g + (B.width : Int) ∧
    (merge (some A) (some B) g).height = max A.height B.height ∧
    ((stack (some A) (some B) g).height : Int) = (A.height : Int) + g + (B.height : Int) ∧
    (stack (some A) (some B) g).width = max A.width B.width ∧
    merge (some A) none g = A ∧ merge none (some B) g = B ∧
    stack (some A) none g = A ∧ stack none (some B) g = B ∧
    merge none none g = newCanvas 1 1 ∧ stack none none g = newCanvas 1 1 := by
  have hAw := hA.1
  have hAh := hA.2.1
  have hBw := hB.1
  have hBh := hB.2.1
  refine ⟨?_, ?_, ?_, ?_, clone_eq_self A hA, clone_eq_self B hB,
    clone_eq_self A hA, clone_eq_self B hB, rfl, rfl⟩
  · rw [merge]
    rw [overlay_width, overlay_width]
    rw [newCanvas_pos_width _ _ (by omega)]
    omega
  · rw [merge]
    rw [overlay_height, overlay_height]
    rw [newCanvas_pos_height _ _ (by split <;> omega)]
    split <;> omega
  · rw [stack]
    rw [overlay_height, overlay_height]
    rw [newCanvas_pos_height _ _ (by omega)]
    omega
  · rw [stack]
    rw [overlay_width, overlay_width]
    rw [newCanvas_pos_width _ _ (by split <;> omega)]
    split <;> omega

/-- Witness for claim C6 at concrete canvases. -/
theorem c6_merge_stack_dims_witness :
    (0 : Int) ≤ 4 ∧ (newCanvas 3 2).WF ∧ (newCanvas 2 5).WF ∧
    (((merge (some (newCanvas 3 2)) (some (newCanvas 2 5)) 4).width : Int)
        = ((newCanvas 3 2).width : Int) + 4 + ((newCanvas 2 5).width : Int) ∧
      (merge (some (newCanvas 3 2)) (some (newCanvas 2 5)) 4).height
        = max (newCanvas 3 2).height (newCanvas 2 5).height ∧
      ((stack (some (newCanvas 3 2)) (some (newCanvas 2 5)) 4).height : Int)
        = ((newCanvas 3 2).height : Int) + 4 + ((newCanvas 2 5).height : Int) ∧
      (stack (some (newCanvas 3 2)) (some (newCanvas 2 5)) 4).width
        = max (newCanvas 3 2).width (newCanvas 2 5).width ∧
      merge (some (newCanvas 3 2)) none 4 = newCanvas 3 2 ∧
      merge none (some (newCanvas 2 5)) 4 = newCanvas 2 5 ∧
      stack (some (newCanvas 3 2)) none 4 = newCanvas 3 2 ∧
      stack none (some (newCanvas 2 5)) 4 = newCanvas 2 5 ∧
      merge none none 4 = newCanvas 1 1 ∧ stack none none 4 = newCanvas 1 1) :=
  ⟨by decide, by decide, by decide,
    c6_merge_stack_dims (newCanvas 3 2) (newCanvas 2 5) 4 (by decide) (by decide) (by decide)⟩

lemma cells_getD_mem (c : Canvas) (hlen : c.cells.length = c.height) (y : Nat)
    (hy : y < c.height) : c.cells.getD y [] ∈ c.cells := by
  rw [List.getD_eq_getElem c.cells [] (by omega)]
  exact List.getElem_mem (by omega)

lemma set_WF (c : Canvas) (hWF : c.WF) (x y : Int) (r : Char) (st : Style) :
    (c.set x y r st).WF := by
  obtain ⟨h1, h2, h3, h4⟩ := hWF
  rw [Canvas.set]
  split
  · exact ⟨h1, h2, h3, h4⟩
  · rename_i hin
    push_neg at hin
    refine ⟨h1, h2, by simpa using h3, ?_⟩
    intro row hrow
    rcases mem_set _ _ _ row hrow with h | h
    · exact h4 row h
    · rw [h, List.length_set]
      exact h4 _ (cells_getD_mem c h3 y.toNat (by omega))

/-- Reading after Set: the written cell at the written in-bounds position,
the old cell everywhere else. -/
lemma get_set (c : Canvas) (hWF : c.WF) (x y : Int) (r : Char) (st : Style) (i j : Int) :
    (c.set x y r st).get i j =
      if x = i ∧ y = j ∧ 0 ≤ i ∧ i < (c.width : Int) ∧ 0 ≤ j ∧ j < (c.height : Int)
      then ⟨r, st, false⟩ else c.get i j := by
  obtain ⟨h1, h2, h3, h4⟩ := hWF
  rw [Canvas.set]
  split
  · rename_i hout
    rw [if_neg (by rintro ⟨rfl, rfl, hb⟩; omega)]
  · rename_i hin
    push_neg at hin
    obtain ⟨hx0, hxw, hy0, hyh⟩ := hin
    rw [Canvas.get, Canvas.get]
    simp only
    by_cases hij : i < 0 ∨ (c.width : Int) ≤ i ∨ j < 0 ∨ (c.height : Int) ≤ j
    · rw [if_pos hij, if_pos hij, if_neg (by rintro ⟨rfl, rfl, hb⟩; omega)]
    · rw [if_neg hij, if_neg hij]
      push_neg at hij
      obtain ⟨hi0, hiw, hj0, hjh⟩ := hij
      rw [getD_set]
      by_cases hyj : y = j
      · rw [if_pos ⟨by omega, by omega⟩]
        have hrowlen : (c.cells.getD y.toNat []).length = c.width :=
          h4 _ (cells_getD_mem c h3 y.toNat (by omega))
        rw [getD_set]
        by_cases hxi : x = i
        · rw [if_pos ⟨by omega, by omega⟩, if_pos ⟨hxi, hyj, by omega, by omega, by omega, by omega⟩]
        · rw [if_neg (by intro hc; exact hxi (by omega)), if_neg (by tauto)]
          have : y.toNat = j.toNat := by omega
          rw [this]
      · rw [if_neg (by intro hc; exact hyj (by omega)), if_neg (by tauto)]

lemma ovStep_width (other : Canvas) (x y : Int) (acc : Canvas) (p : Nat × Nat) :
    (ovStep other x y acc p).width = acc.width := by
  rw [ovStep]
  split
  · rfl
  · rw [set_width]

lemma ovStep_height (other : Canvas) (x y : Int) (acc : Canvas) (p : Nat × Nat) :
    (ovStep other x y acc p).height = acc.height := by
  rw [ovStep]
  split
  · rfl
  · rw [set_height]

lemma ovStep_WF (other : Canvas) (x y : Int) (acc : Canvas) (p : Nat × Nat)
    (h : acc.WF) : (ovStep other x y acc p).WF := by
  rw [ovStep]
  split
  · exact h
  · exact set_WF acc h ..

lemma foldl_nested_pairs {β : Type} (f : β → Nat × Nat → β) (ys xs : List Nat) :
    ∀ c0 : β, ys.foldl (fun a oy => xs.foldl (fun a2 ox => f a2 (oy, ox)) a) c0
      = (ys.flatMap (fun oy => xs.map (fun ox => (oy, ox)))).foldl f c0 := by
  induction ys with
  | nil => intro c0; rfl
  | cons oy rest ih =>
    intro c0
    rw [List.foldl_cons, List.flatMap_cons, List.foldl_append, List.foldl_map, ih]

/-- Reading after a list of Overlay writes: the overlaid cell when some
write hits the position, the original cell otherwise. -/
lemma ov_fold_get (other : Canvas) (x y : Int) (w h : Nat) (i j : Int) :
    ∀ (L : List (Nat × Nat)) (c0 : Canvas), c0.WF → c0.width = w → c0.height = h →
      (L.foldl (ovStep other x y) c0).get i j
        = if ∃ p ∈ L, ((other.cells.getD p.1 []).getD p.2 transparentCell).transparent = false ∧
              x + (p.2 : Int) = i ∧ y + (p.1 : Int) = j ∧
              0 ≤ i ∧ i < (w : Int) ∧ 0 ≤ j ∧ j < (h : Int)
          then (other.cells.getD (j - y).toNat []).getD (i - x).toNat transparentCell
          else c0.get i j := by
  intro L
  induction L with
  | nil =>
    intro c0 _ _ _
    rw [List.foldl_nil, if_neg (by simp)]
  | cons p rest ih =>
    intro c0 hWF hw hh
    rw [List.foldl_cons]
    rw [ih (ovStep other x y c0 p) (ovStep_WF other x y c0 p hWF)
      (by rw [ovStep_width, hw]) (by rw [ovStep_height, hh])]
    rcases htr : ((other.cells.getD p.1 []).getD p.2 transparentCell).transparent with _ | _
    · -- the write happens
      have hstep : ovStep other x y c0 p
          = c0.set (x + (p.2 : Int)) (y + (p.1 : Int))
            ((other.cells.getD p.1 []).getD p.2 transparentCell).rune
            ((other.cells.getD p.1 []).getD p.2 transparentCell).style := by
        rw [ovStep]
        rw [if_neg (by rw [htr]; exact Bool.false_ne_true)]
      by_cases hrest : ∃ p ∈ rest,
          ((other.cells.getD p.1 []).getD p.2 transparentCell).transparent = false ∧
          x + (p.2 : Int) = i ∧ y + (p.1 : Int) = j ∧
          0 ≤ i ∧ i < (w : Int) ∧ 0 ≤ j ∧ j < (h : Int)
      · rw [if_pos hrest, if_pos (by
          rcases hrest with ⟨q, hq, hcond⟩
          exact ⟨q, List.mem_cons_of_mem p hq, hcond⟩)]
      · rw [if_neg hrest]
        rw [hstep, get_set c0 hWF]
        by_cases hp : x + (p.2 : Int) = i ∧ y + (p.1 : Int) = j ∧
            0 ≤ i ∧ i < (w : Int) ∧ 0 ≤ j ∧ j < (h : Int)
        · obtain ⟨hpx, hpy, hb⟩ := hp
          rw [if_pos (by rw [hw, hh]; exact ⟨hpx, hpy, hb⟩)]
          rw [if_pos ⟨p, List.mem_cons_self p rest, htr, hpx, hpy, hb⟩]
          have e1 : (j - y).toNat = p.1 := by omega
          have e2 : (i - x).toNat = p.2 := by omega
          rw [e1, e2]
          rcases hcell : (other.cells.getD p.1 []).getD p.2 transparentCell with ⟨rn, stl, tr⟩
          rw [hcell] at htr
          simp only at htr
          rw [htr]
        · rw [if_neg (by rw [← hw, ← hh] at hp; exact hp)]
          rw [if_neg (by
            rintro ⟨q, hq, hcond⟩
            rcases List.mem_cons.mp hq with rfl | hq2
            · exact hp ⟨hcond.2.1, hcond.2.2⟩
            · exact hrest ⟨q, hq2, hcond⟩)]
    · -- transparent: no write
      have hstep : ovStep other x y c0 p = c0 := by
        rw [ovStep]
        rw [if_pos htr]
      rw [hstep]
      by_cases hrest : ∃ p ∈ rest,
          ((other.cells.getD p.1 []).getD p.2 transparentCell).transparent = false ∧
          x + (p.2 : Int) = i ∧ y + (p.1 : Int) = j ∧
          0 ≤ i ∧ i < (w : Int) ∧ 0 ≤ j ∧ j < (h : Int)
      · rw [if_pos hrest, if_pos (by
          rcases hrest with ⟨q, hq, hcond⟩
          exact ⟨q, List.mem_cons_of_mem p hq, hcond⟩)]
      · rw [if_neg hrest]
        rw [if_neg (by
          rintro ⟨q, hq, hcond⟩
          rcases List.mem_cons.mp hq with rfl | hq2
          · rw [htr] at hcond; exact Bool.true_eq_false.mp hcond.1
          · exact hrest ⟨q, hq2, hcond⟩)]

lemma overlayCells_as_pairs (c other : Canvas) (x y : Int) :
    c.overlayCells other x y
      = (((List.range other.height).flatMap
          (fun oy => (List.range other.width).map (fun ox => (oy, ox))))).foldl
          (ovStep other x y) c :=
  foldl_nested_pairs (ovStep other x y) (List.range other.height) (List.range other.width) c

lemma newCanvas_cell_transparent (w h : Int) (oy ox : Nat) :
    ((newCanvas w h).cells.getD oy []).getD ox transparentCell = transparentCell := by
  rw [newCanvas_cells]
  by_cases hy : oy < (newCanvas w h).height
  · rw [List.getD_eq_getElem _ [] (by simpa using hy), List.getElem_replicate]
    by_cases hx : ox < (newCanvas w h).width
    · rw [List.getD_eq_getElem _ _ (by simpa using hx), List.getElem_replicate]
    · rw [getD_len_le _ _ _ (by rw [List.length_replicate]; omega)]
  · have houter : (List.replicate (newCanvas w h).height
        (List.replicate (newCanvas w h).width transparentCell)).getD oy [] = [] :=
      getD_len_le _ _ _ (by rw [List.length_replicate]; omega)
    rw [houter]
    rfl

/-- Claim C7: Overlay copies exactly the non-transparent cells of the other
canvas; transparent cells never change the receiver, so overlaying a freshly
created canvas is a no-op, as is a nil other. -/
theorem c7_overlay_exact (c other : Canvas) (x y : Int) (hc : c.WF) (hother : other.WF) :
    (∀ i j : Int,
      (c.overlay (some other) x y).get i j =
        if 0 ≤ i - x ∧ i - x < (other.width : Int) ∧ 0 ≤ j - y ∧ j - y < (other.height : Int) ∧
            (other.get (i - x) (j - y)).transparent = false ∧
            0 ≤ i ∧ i < (c.width : Int) ∧ 0 ≤ j ∧ j < (c.height : Int)
        then other.get (i - x) (j - y) else c.get i j) ∧
    (∀ w h : Int, c.overlay (some (newCanvas w h)) x y = c) ∧
    c.overlay none x y = c := by
  refine ⟨?_, ?_, rfl⟩
  · intro i j
    show (c.overlayCells other x y).get i j = _
    rw [overlayCells_as_pairs]
    rw [ov_fold_get other x y c.width c.height i j _ c hc rfl rfl]
    by_cases hcond : 0 ≤ i - x ∧ i - x < (other.width : Int) ∧ 0 ≤ j - y ∧
        j - y < (other.height : Int) ∧ (other.get (i - x) (j - y)).transparent = false ∧
        0 ≤ i ∧ i < (c.width : Int) ∧ 0 ≤ j ∧ j < (c.height : Int)
    · obtain ⟨e1, e2, e3, e4, e5, e6⟩ := hcond
      have hget : other.get (i - x) (j - y)
          = (other.cells.getD (j - y).toNat []).getD (i - x).toNat transparentCell := by
        rw [Canvas.get, if_neg (by omega)]
      rw [if_pos ⟨((j - y).toNat, (i - x).toNat), by
          rw [List.mem_flatMap]
          exact ⟨(j - y).toNat, List.mem_range.mpr (by omega),
            List.mem_map.mpr ⟨(i - x).toNat, List.mem_range.mpr (by omega), rfl⟩⟩,
        by rw [← hget]; exact e5, by omega, by omega, e6⟩]
      rw [if_pos ⟨e1, e2, e3, e4, e5, e6⟩, hget]
    · rw [if_neg hcond]
      rw [if_neg (by
        rintro ⟨⟨oy, ox⟩, hmem, htr, hx2, hy2, hb⟩
        rw [List.mem_flatMap] at hmem
        obtain ⟨oy2, hoy2, hmap⟩ := hmem
        rw [List.mem_map] at hmap
        obtain ⟨ox2, hox2, heq⟩ := hmap
        injection heq with he1 he2
        rw [List.mem_range] at hoy2 hox2
        refine hcond ⟨by omega, by omega, by omega, by omega, ?_, hb⟩
        have hget : other.get (i - x) (j - y)
            = (other.cells.getD (j - y).toNat []).getD (i - x).toNat transparentCell := by
          rw [Canvas.get, if_neg (by omega)]
        rw [hget]
        have e1 : (j - y).toNat = oy := by omega
        have e2 : (i - x).toNat = ox := by omega
        rw [e1, e2]
        exact htr)]
  · intro w h
    show (((List.range (newCanvas w h).height).foldl (fun a oy =>
        (List.range (newCanvas w h).width).foldl
          (fun a2 ox => ovStep (newCanvas w h) x y a2 (oy, ox)) a) c) : Canvas) = c
    have hid : ∀ (L : List (Nat × Nat)) (c0 : Canvas),
        L.foldl (ovStep (newCanvas w h) x y) c0 = c0 := by
      intro L
      induction L with
      | nil => intro c0; rfl
      | cons p rest ih =>
        intro c0
        rw [List.foldl_cons]
        have : ovStep (newCanvas w h) x y c0 p = c0 := by
          rw [ovStep, newCanvas_cell_transparent]
          rfl
        rw [this, ih]
    rw [foldl_nested_pairs, hid]

/-- Witness for claim C7 at concrete canvases. -/
theorem c7_overlay_exact_witness :
    (c7Recv.overlay (some c7Other) 0 1).get 1 1 = c7Other.get 1 0 ∧
    c7Recv.overlay (some (newCanvas 5 5)) 0 1 = c7Recv ∧
    c7Recv.overlay none 0 1 = c7Recv := by
  refine ⟨?_, (c7_overlay_exact c7Recv c7Other 0 1 (by decide) (by decide)).2.1 5 5,
    (c7_overlay_exact c7Recv c7Other 0 1 (by decide) (by decide)).2.2⟩
  have h := (c7_overlay_exact c7Recv c7Other 0 1 (by decide) (by decide)).1 1 1
  rw [h]
  decide

/-!  Claim C2: Render versus RenderPlain.  -/

lemma stripAnsiSt_append (a b : List Char) : ∀ st : Bool,
    stripAnsiSt st (a ++ b)
      = ((stripAnsiSt st a).1 ++ (stripAnsiSt (stripAnsiSt st a).2 b).1,
         (stripAnsiSt (stripAnsiSt st a).2 b).2) := by
  induction a with
  | nil => intro st; rfl
  | cons r rest ih =>
    intro st
    rw [List.cons_append]
    by_cases h1 : r = escChar
    · rw [stripAnsiSt, if_pos h1, stripAnsiSt, if_pos h1]
      exact ih true
    · cases st with
      | true =>
        by_cases h2 : ('a' ≤ r ∧ r ≤ 'z') ∨ ('A' ≤ r ∧ r ≤ 'Z')
        · rw [stripAnsiSt, if_neg h1, if_pos rfl, if_pos h2,
            stripAnsiSt, if_neg h1, if_pos rfl, if_pos h2]
          exact ih false
        · rw [stripAnsiSt, if_neg h1, if_pos rfl, if_neg h2,
            stripAnsiSt, if_neg h1, if_pos rfl, if_neg h2]
          exact ih true
      | false =>
        rw [stripAnsiSt, if_neg h1, if_neg (by simp), stripAnsiSt, if_neg h1, if_neg (by simp)]
        rw [ih false]
        simp

lemma renderRowPlain_cons (cell : Cell) (rest : List Cell) :
    renderRowPlain (cell :: rest) =
      if cell.rune = nullChar then renderRowPlain rest
      else cell.rune :: renderRowPlain rest := by
  rw [renderRowPlain, renderRowPlain, List.filter_cons]
  by_cases h : cell.rune = nullChar
  · rw [if_pos h, if_neg (by simpa using h)]
  · rw [if_neg h, if_pos (by simpa using h)]
    rfl

/-- Markup removal turns a styled row into its plain row, on well-formed
rows. -/
lemma renderRow_strip (row : List Cell) : ∀ skip, rowWF skip row = true →
    stripAnsi (renderRowStyledAux skip row) = renderRowPlain row := by
  induction row with
  | nil => intro skip _; cases skip <;> rfl
  | cons cell rest ih =>
    intro skip hwf
    cases skip with
    | succ k =>
      rw [rowWF] at hwf
      obtain ⟨hnull, hwf2⟩ := Bool.and_eq_true_iff.mp hwf
      rw [renderRowStyledAux, ih k hwf2, renderRowPlain_cons,
        if_pos (by simpa using hnull)]
    | zero =>
      rw [rowWF] at hwf
      by_cases hnull : cell.rune = nullChar
      · rw [if_pos hnull] at hwf
        rw [renderRowStyledAux, if_pos hnull, ih 0 hwf, renderRowPlain_cons, if_pos hnull]
      · rw [if_neg hnull] at hwf
        have h1 := Bool.and_eq_true_iff.mp hwf
        have h2 := Bool.and_eq_true_iff.mp h1.1
        have h3 := Bool.and_eq_true_iff.mp h2.1
        have hwf2 := h1.2
        have hesc' : cell.rune ≠ escChar := of_decide_eq_true h3.1
        have hpre' : stripAnsiSt false cell.style.pre = ([], false) := of_decide_eq_true h3.2
        have hsuf' : stripAnsiSt false cell.style.suf = ([], false) := of_decide_eq_true h2.2
        rw [renderRowStyledAux, if_neg hnull]
        rw [renderRowPlain_cons, if_neg hnull]
        rw [Style.renderS]
        rw [stripAnsi]
        rw [List.append_assoc, List.append_assoc]
        rw [stripAnsiSt_append, hpre']
        simp only
        have hmid : stripAnsiSt false ([cell.rune] ++
            (cell.style.suf ++ renderRowStyledAux (max (runeWidth cell.rune) 1 - 1) rest))
            = (cell.rune ::
              (stripAnsiSt false (cell.style.suf ++
                renderRowStyledAux (max (runeWidth cell.rune) 1 - 1) rest)).1,
              (stripAnsiSt false (cell.style.suf ++
                renderRowStyledAux (max (runeWidth cell.rune) 1 - 1) rest)).2) := by
          rw [List.singleton_append, stripAnsiSt, if_neg hesc', if_neg (by simp)]
        rw [hmid]
        simp only
        rw [stripAnsiSt_append, hsuf']
        simp only
        rw [← stripAnsi, ih _ hwf2]
        simp

lemma dropWhile_map {α β : Type} (f : α → β) (p : β → Bool) (l : List α) :
    (l.dropWhile (fun x => p (f x))).map f = (l.map f).dropWhile p := by
  induction l with
  | nil => rfl
  | cons a t ih =>
    by_cases h : p (f a) <;> simp [List.dropWhile, h, ih]

/-- Claim C2, amended: for canvases whose rows satisfy the wide-symbol and
markup invariants, Render with its style markup removed equals RenderPlain
with trailing all-whitespace rows trimmed; RenderPlain itself does not trim
(see the counterexample). -/
theorem c2_render_plain_relation (c : Canvas)
    (h : ∀ row ∈ c.cells, rowWF 0 row = true) :
    (c.render).map stripAnsi = trimTrailingBlank c.renderPlain := by
  have hrow : ∀ y : Nat, stripAnsi (renderRowStyled (c.cells.getD y []))
      = renderRowPlain (c.cells.getD y []) := by
    intro y
    rw [renderRowStyled]
    apply renderRow_strip
    by_cases hy : y < c.cells.length
    · exact h _ (by rw [List.getD_eq_getElem c.cells [] hy]; exact List.getElem_mem hy)
    · rw [getD_len_le _ _ _ (by omega)]; rfl
  have hmaps : (List.map (fun y => renderRowStyled (c.cells.getD y [])) (List.range c.height)).map
      stripAnsi = List.map (fun y => renderRowPlain (c.cells.getD y [])) (List.range c.height) := by
    rw [List.map_map]
    exact List.map_congr_left (fun y _ => hrow y)
  have main : ∀ (S P : List (List Char)), S.map stripAnsi = P →
      ((S.reverse.dropWhile (fun l => isBlankLine (stripAnsi l))).reverse).map stripAnsi
        = (P.reverse.dropWhile isBlankLine).reverse := by
    intro S P hSP
    rw [← hSP]
    simp only [List.map_reverse]
    rw [dropWhile_map stripAnsi isBlankLine]
    simp only [List.map_reverse]
  rw [Canvas.render, trimTrailingBlank, Canvas.renderPlain]
  exact main _ _ hmaps

/-- Counterexample to claim C2 as stated: Render (with markup removed)
trims the trailing blank row, RenderPlain keeps it, so the two line
sequences differ. -/
theorem c2_counterexample :
    ¬ (c2Canvas.render).map stripAnsi = c2Canvas.renderPlain := by decide

/-- Witness for the amended claim C2 at the same concrete canvas. -/
theorem c2_render_plain_relation_witness :
    (∀ row ∈ c2Canvas.cells, rowWF 0 row = true) ∧
    (c2Canvas.render).map stripAnsi = trimTrailingBlank c2Canvas.renderPlain :=
  ⟨by decide, c2_render_plain_relation c2Canvas (by decide)⟩

/-!  Claim C5: end-to-end composition.  -/

set_option maxRecDepth 8000 in
/-- Claim C5: composing the text Hi at width 40 with the default say style,
down tail and vertical layout over the 4-row cat art yields 3 bubble rows,
2 connector rows and 4 character rows; the top row carries the top-border
glyph, the single content row is delimited by the single-line pair, and the
total row count is 3 + 2 + 4. -/
theorem c5_compose_end_to_end :
    builtinCat.art.length = 4 ∧
    (renderBubble (str "Hi") 40 .say {}).height = 3 ∧
    (generateConnectorWithDirection (str "\\") 2 builtinCat.getAnchorX .down {}).height = 2 ∧
    ((builtinCat.toCanvasStyled (str "oo") (str "w")
        (resolveCharacterStyles (mergeColors builtinCat.colors none) {})).map Canvas.height)
      = some 4 ∧
    ((compose (str "Hi") builtinCat (str "oo") (str "w") defaultConfig).map
        (fun c => (c.height, (c.get 0 1).rune, (c.get 5 1).rune,
          (renderRowPlain (c.cells.getD 0 [])).contains '_')))
      = some (3 + 2 + 4, '<', '>', true) := by
  refine ⟨rfl, by decide, by decide, by decide, by decide⟩

end FamiliarSays
